import Mathlib

/-!
# zenity: the option model and the Windows and macOS file-dialog adapters

A shallow embedding of `zenity.go`, `file_windows.go`, `file_darwin.go` and the
flag parser of `cmd/zenity/main.go`.

Conventions of the embedding
* A Go slice `[]T` is an `Option (List T)`: `none` is the nil slice, `some l` a
  non-nil slice with elements `l` (so `some []` is the empty non-nil slice).
* A Go `string` on the Windows side is a Lean `String` (a sequence of Unicode
  scalar values, i.e. valid UTF-8); `[]rune(s)` is the list of its code points.
  On the macOS side strings are never decoded, so they stay byte lists.
* `uint16` and `uintptr` values are natural numbers; `int32(hr) < 0` is the test
  of bit 31 of `hr` after truncation to 32 bits.
* The operating system is a record of the values its procedures answer with in
  one run (`Native`); every function returns, next to its outcome, the trace of
  native calls it made, deferred calls included, in execution order. A long
  Go function is cut into the parts between its early returns.
-/

namespace Zenity

/-! ## Go runtime values -/

/-- Go slice: `none` is nil, `some l` is non-nil with elements `l`. -/
abbrev Slice (α : Type) := Option (List α)

/-- Elements of a slice; what `range` iterates over and what `len` counts. -/
def Slice.elems {α : Type} : Slice α → List α
  | none => []
  | some l => l

/-- Go `append(s, xs...)`: appending nothing gives `s` back (nil stays nil),
appending at least one element gives a non-nil slice. -/
def Slice.append {α : Type} (s : Slice α) (xs : List α) : Slice α :=
  match xs with
  | [] => s
  | x :: xs => some (s.elems ++ x :: xs)

/-- Go `s[i:j]` on the elements of an array or slice. -/
def subslice {α : Type} (s : List α) (i j : Nat) : List α :=
  (s.drop i).take (j - i)

/-- Go `copy(dst, src)`: overwrites the first `min(len(dst), len(src))` elements. -/
def copy {α : Type} (dst src : List α) : List α :=
  src.take dst.length ++ dst.drop src.length

/-- Go error values the adapters produce or pass on. -/
inductive GoError
  | errno (code : Nat)
  | errorf (msg : String)
  | exitError (code : Int)
  | other (msg : String)
  deriving DecidableEq, Repr

/-- How a Go function call ends: it returns `(val, err)` or it panics. -/
inductive Outcome (α : Type)
  | returned (val : α) (err : Option GoError)
  | panicked (msg : String)
  deriving DecidableEq, Repr

/-! ## `unicode/utf16` and `syscall` string helpers (Go standard library) -/

namespace utf16

def surr1 : Nat := 0xd800
def surr2 : Nat := 0xdc00
def surr3 : Nat := 0xe000
def surrSelf : Nat := 0x10000
def maxRune : Nat := 0x10FFFF
def replacementChar : Nat := 0xFFFD

/-- Go `utf16.EncodeRune` on a rune in the supplementary planes. -/
def EncodeRune (r : Nat) : Nat × Nat :=
  let r := r - surrSelf
  (surr1 + ((r >>> 10) &&& 0x3ff), surr2 + (r &&& 0x3ff))

/-- Go `utf16.DecodeRune` on a valid surrogate pair. -/
def DecodeRune (r1 r2 : Nat) : Nat :=
  (((r1 - surr1) <<< 10) ||| (r2 - surr2)) + surrSelf

/-- One iteration of the loop of Go `utf16.Encode`. -/
def encode1 (v : Nat) : List Nat :=
  if v < surr1 ∨ (surr3 ≤ v ∧ v < surrSelf) then [v]
  else if surrSelf ≤ v ∧ v ≤ maxRune then [(EncodeRune v).1, (EncodeRune v).2]
  else [replacementChar]

/-- Go `utf16.Encode`: the UTF-16 encoding of a sequence of runes. -/
def Encode (s : List Nat) : List Nat :=
  s.flatMap encode1

/-- Go `utf16.Decode`: the runes of a UTF-16 sequence; an unpaired surrogate
decodes to U+FFFD. -/
def Decode : List Nat → List Nat
  | [] => []
  | [r] => if r < surr1 ∨ surr3 ≤ r then [r] else [replacementChar]
  | r :: r2 :: rest =>
    if r < surr1 ∨ surr3 ≤ r then r :: Decode (r2 :: rest)
    else if surr1 ≤ r ∧ r < surr2 ∧ surr2 ≤ r2 ∧ r2 < surr3 then
      DecodeRune r r2 :: Decode rest
    else replacementChar :: Decode (r2 :: rest)

end utf16

/-- Go `[]rune(s)` for a valid UTF-8 string. -/
def runes (s : String) : List Nat :=
  s.data.map Char.toNat

/-- Go `string(rs)` for a rune slice: a rune that is no Unicode scalar value
becomes U+FFFD. -/
def string (rs : List Nat) : String :=
  String.mk (rs.map fun r =>
    if r < utf16.surr1 ∨ (utf16.surr3 ≤ r ∧ r ≤ utf16.maxRune) then Char.ofNat r
    else Char.ofNat utf16.replacementChar)

/-- Go `syscall.StringToUTF16`: the UTF-16 encoding with a terminating NUL; it
panics when the string holds a NUL. -/
def StringToUTF16 (s : String) : Except String (List Nat) :=
  if s.data.contains (Char.ofNat 0) then
    .error "syscall: string with NUL passed to StringToUTF16"
  else .ok (utf16.Encode (runes s) ++ [0])

/-- Go `syscall.UTF16ToString`: decodes up to the first NUL. -/
def UTF16ToString (s : List Nat) : String :=
  string (utf16.Decode (s.takeWhile fun u => u ≠ 0))

/-- Go `strings.Split(s, sep)` for a separator of one element, on the elements
of `s`: the pieces between the separators, one more than there are separators. -/
def stringsSplit (sep : Nat) : List Nat → List (List Nat)
  | [] => [[]]
  | c :: cs =>
    if c = sep then [] :: stringsSplit sep cs
    else
      match stringsSplit sep cs with
      | [] => [[c]]
      | h :: t => (c :: h) :: t

/-! ## Inputs shared by the adapters -/

/-- Modelled from the spec: the `FileFilter` type, whose declaration is not in
the sources at hand: `{Name: string, Patterns: ordered sequence of glob strings}`. -/
structure FileFilter where
  Name : String
  Patterns : Slice String
  deriving DecidableEq, Repr

/-- Modelled from the spec: the record `optsParse` resolves a call's options
into; `optsParse` is not in the sources at hand, so the fields that
`file_windows.go` and `file_darwin.go` read from its result are the inputs of
the adapters. -/
structure ParsedOptions where
  title : String
  filename : String
  overwrite : Bool
  filters : Slice FileFilter
  deriving DecidableEq, Repr

/-! ## Windows adapter (`file_windows.go`) -/

namespace Windows

/-- The loop of `SelectFileMutiple` over the result buffer `res`, from index `j`
on (`rest` is `res[j:]`): `i` is the start of the current run, `nul` tells that
the previous unit was NUL, `split` collects the decoded runs. A second
consecutive NUL breaks out of the loop. -/
def scan (res : List Nat) : List Nat → Nat → Nat → Bool → Slice String → Slice String
  | [], _, _, _, split => split
  | p :: rest, j, i, nul, split =>
    if p = 0 then
      if nul then split
      else
        scan res rest (j + 1) (j + 1) true
          (if i < j then split.append [string (utf16.Decode (subslice res i j))] else split)
    else scan res rest (j + 1) i false split

/-- The loop `for i := 0; i < len; i++ { split[i] = filepath.Join(base, split[i+1]) }`
of `SelectFileMutiple`, run for `fuel` remaining iterations from index `i`. -/
def joinLoop (join : String → String → String) (base : String) :
    Nat → Nat → List String → List String
  | 0, _, split => split
  | fuel + 1, i, split =>
    joinLoop join base fuel (i + 1) (split.set i (join base (split.getD (i + 1) "")))

/-- The part of `SelectFileMutiple` after a successful native call: split the
buffer into runs, then join the first run with every later one. `join` is
`filepath.Join` (Go standard library). -/
def decodeSelection (join : String → String → String) (res : List Nat) : Slice String :=
  let split := scan res res 0 0 false none
  let len : Int := (split.elems.length : Int) - 1
  if len > 0 then
    let base := split.elems.getD 0 ""
    some ((joinLoop join base len.toNat 0 split.elems).take len.toNat)
  else split

/-- Body of the inner loop of `windowsFilters`: each pattern, then `';'`. -/
def appendPatterns (res : Slice Nat) (patterns : List String) : Slice Nat :=
  patterns.foldl (fun res p => (res.append (utf16.Encode (runes p))).append [59]) res

/-- Go `windowsFilters`: the filter buffer handed to the common dialogs. -/
def windowsFilters (filters : Slice FileFilter) : Slice Nat :=
  let res := filters.elems.foldl (fun res f =>
    let res := res.append (utf16.Encode (runes f.Name))
    let res := res.append [0]
    let res := appendPatterns res f.Patterns.elems
    res.append [0]) none
  if res ≠ none then res.append [0] else res

/-- Go `&s[0]`: a pointer to the first element, shown as the elements it points
at; indexing a slice of length zero panics. -/
def addrOfFirst (s : Slice Nat) : Except String (List Nat) :=
  match s.elems with
  | [] => .error "runtime error: index out of range [0] with length 0"
  | x :: xs => .ok (x :: xs)

/-- The fields of `_OPENFILENAME` the adapter sets. A pointer field is `none`
when null, else the memory it points at. `StructSize` is a layout constant and
is left out. -/
structure OPENFILENAME where
  Flags : Nat
  Title : Option (List Nat)
  Filter : Option (List Nat)
  File : List Nat
  MaxFile : Nat
  InitialDir : Option (List Nat)
  deriving DecidableEq, Repr

/-- The fields of `_BROWSEINFO` the adapter sets. -/
structure BROWSEINFO where
  Flags : Nat
  Title : Option (List Nat)
  deriving DecidableEq, Repr

/-- Native calls, as they appear in a trace. -/
inductive Call
  | LockOSThread
  | UnlockOSThread
  | GetOpenFileName (args : OPENFILENAME)
  | GetSaveFileName (args : OPENFILENAME)
  | CommDlgExtendedError
  | CoInitializeEx (flags : Nat)
  /-- the call of `CoUninitialize` -/
  | CoUninit
  | CoCreateInstance (clsctx : Nat)
  | DialogRelease
  | DialogGetOptions
  | DialogSetOptions (flags : Nat)
  | DialogSetTitle (title : List Nat)
  | SHCreateItemFromParsingName (name : List Nat)
  | DialogSetDefaultFolder
  | FolderItemRelease
  | DialogShow
  | DialogGetResult
  | ResultItemRelease
  | ItemGetDisplayName (sigdn : Nat)
  | CoTaskMemFree (ptr : Nat)
  | SHBrowseForFolder (args : BROWSEINFO)
  | SHGetPathFromIDListEx (ptr : Nat) (size : Nat)
  deriving DecidableEq, Repr

/-- What the operating system answers in one run: the value each native
procedure returns and the memory it writes. A COM call that reports success is
taken to have set its out-pointer. -/
structure Native where
  /-- return value of `GetOpenFileNameW` -/
  getOpenFileName : Nat
  /-- return value of `GetSaveFileNameW` -/
  getSaveFileName : Nat
  /-- content of the `File` buffer after the common dialog returned -/
  fileBuffer : List Nat
  commDlgExtendedError : Nat
  coInitializeEx : Nat
  coCreateInstance : Nat
  getOptions : Nat
  /-- flags written by `GetOptions` -/
  flgs : Nat
  setOptions : Nat
  /-- whether `SHCreateItemFromParsingName` stored a non-nil item -/
  parsedItem : Bool
  dialogShow : Nat
  getResult : Nat
  getDisplayName : Nat
  /-- pointer written by `GetDisplayName` and the memory it points at -/
  namePtr : Nat
  nameMem : List Nat
  /-- item returned by `SHBrowseForFolderW` -/
  shBrowseForFolder : Nat
  /-- content of the path buffer after `SHGetPathFromIDListEx` -/
  pathBuffer : List Nat
  deriving DecidableEq, Repr

/-- Outcome of a call together with the native calls made, in order. -/
structure Run (α : Type) where
  outcome : Outcome α
  trace : List Call

/-- Go `return v, err`. -/
def ret {α : Type} (v : α) (err : Option GoError) : Run α :=
  ⟨.returned v err, []⟩

/-- A panic. -/
def panics {α : Type} (msg : String) : Run α :=
  ⟨.panicked msg, []⟩

/-- A native call followed by the rest of the function. -/
def call {α : Type} (c : Call) (rest : Run α) : Run α :=
  ⟨rest.outcome, c :: rest.trace⟩

/-- Go `defer c`: the call `c` runs when the rest of the function has ended,
by return or by panic, after the calls deferred later than it. -/
def defer {α : Type} (c : Call) (rest : Run α) : Run α :=
  ⟨rest.outcome, rest.trace ++ [c]⟩

/-- Go `int32(hr) < 0` for a `uintptr` value. -/
def int32Neg (hr : Nat) : Bool :=
  decide (2 ^ 31 ≤ hr % 2 ^ 32)

/-- Go `syscall.StringToUTF16Ptr(s)` guarded by `if s != ""`: a null pointer for
the empty string. -/
def optUTF16Ptr (s : String) : Except String (Option (List Nat)) :=
  if s ≠ "" then (StringToUTF16 s).map some else .ok none

/-- Go `initDirAndName`: copies the file name into the buffer `name` and returns
the directory pointer with the buffer. `splitDirAndName` is not in the sources
at hand and is a parameter. -/
def initDirAndName (splitDirAndName : String → String × String) (filename : String)
    (name : List Nat) : Except String (Option (List Nat) × List Nat) :=
  if filename ≠ "" then
    let (d, n) := splitDirAndName filename
    (if n ≠ "" then (StringToUTF16 n).map (copy name) else .ok name) >>= fun name =>
    if d ≠ "" then (StringToUTF16 d).map fun p => (some p, name)
    else .ok (none, name)
  else .ok (none, name)

/-- The code shared by the three common-dialog functions before the native
call: title, filter pointer, result buffer of `size` units, initial directory. -/
def openFileNameArgs (splitDirAndName : String → String × String) (flags size : Nat)
    (opts : ParsedOptions) : Except String OPENFILENAME :=
  optUTF16Ptr opts.title >>= fun title =>
  (if opts.filters ≠ none then (addrOfFirst (windowsFilters opts.filters)).map some
   else .ok none) >>= fun filter =>
  initDirAndName splitDirAndName opts.filename (List.replicate size 0) >>= fun dn =>
  .ok { Flags := flags, Title := title, Filter := filter, File := dn.2, MaxFile := size,
        InitialDir := dn.1 }

/-- Go `fmt.Errorf("Common Dialog error: %x", n)`. -/
def commDlgErrorf (n : Nat) : GoError :=
  .errorf ("Common Dialog error: " ++ String.mk (Nat.toDigits 16 n))

/-- Go `commDlgError`: nil when `CommDlgExtendedError` answers 0. -/
def commDlgError (sys : Native) : Option GoError :=
  if sys.commDlgExtendedError = 0 then none else some (commDlgErrorf sys.commDlgExtendedError)

/-- Go `SelectFile` (Windows). -/
def SelectFile (splitDirAndName : String → String × String) (sys : Native)
    (opts : ParsedOptions) : Run String :=
  match openFileNameArgs splitDirAndName 0x80008 32768 opts with
  | .error msg => panics msg
  | .ok args =>
    call .LockOSThread <| defer .UnlockOSThread <|
    call (.GetOpenFileName args) <|
    if sys.getOpenFileName = 0 then
      call .CommDlgExtendedError <| ret "" (commDlgError sys)
    else ret (UTF16ToString sys.fileBuffer) none

/-- Go `SelectFileMutiple` (Windows). -/
def SelectFileMutiple (join : String → String → String)
    (splitDirAndName : String → String × String) (sys : Native)
    (opts : ParsedOptions) : Run (Slice String) :=
  match openFileNameArgs splitDirAndName 0x80208 (32768 + 1024 * 256) opts with
  | .error msg => panics msg
  | .ok args =>
    call .LockOSThread <| defer .UnlockOSThread <|
    call (.GetOpenFileName args) <|
    if sys.getOpenFileName = 0 then
      call .CommDlgExtendedError <| ret none (commDlgError sys)
    else ret (decodeSelection join sys.fileBuffer) none

/-- Go `SelectFileSave` (Windows). -/
def SelectFileSave (splitDirAndName : String → String × String) (sys : Native)
    (opts : ParsedOptions) : Run String :=
  match openFileNameArgs splitDirAndName
      (if opts.overwrite then 0x80008 ||| 0x2 else 0x80008) 32768 opts with
  | .error msg => panics msg
  | .ok args =>
    call .LockOSThread <| defer .UnlockOSThread <|
    call (.GetSaveFileName args) <|
    if sys.getSaveFileName = 0 then
      call .CommDlgExtendedError <| ret "" (commDlgError sys)
    else ret (UTF16ToString sys.fileBuffer) none

/-- Go `browseForFolder`: the legacy folder browser. -/
def browseForFolder (sys : Native) (title : String) : Run String :=
  match optUTF16Ptr title with
  | .error msg => panics msg
  | .ok t =>
    call (.SHBrowseForFolder { Flags := 0x1, Title := t }) <|
    if sys.shBrowseForFolder = 0 then ret "" none
    else
      defer (.CoTaskMemFree sys.shBrowseForFolder) <|
      call (.SHGetPathFromIDListEx sys.shBrowseForFolder 32768) <|
      ret (UTF16ToString sys.pathBuffer) none

/-- Go `SelectDirectory` (Windows), from the `Show` call to the end. -/
def showAndResolve (sys : Native) : Run String :=
  call .DialogShow <|
  if sys.dialogShow = 0x800704c7 then ret "" none
  else if int32Neg sys.dialogShow then ret "" (some (.errno sys.dialogShow))
  else
    call .DialogGetResult <|
    if int32Neg sys.getResult then ret "" (some (.errno sys.getResult))
    else
      defer .ResultItemRelease <|
      call (.ItemGetDisplayName 0x80058000) <|
      if int32Neg sys.getDisplayName then ret "" (some (.errno sys.getDisplayName))
      else
        defer (.CoTaskMemFree sys.namePtr) <|
        ret (UTF16ToString sys.nameMem) none

/-- Go `SelectDirectory` (Windows), from the optional `SetTitle` to the end. The
default-folder step tests `hr >= 0 && item != nil` on an unsigned `hr`, so only
the item decides. -/
def configureAndShow (sys : Native) (opts : ParsedOptions) : Run String :=
  match optUTF16Ptr opts.title with
  | .error msg => panics msg
  | .ok title =>
    (match title with
     | some p => call (.DialogSetTitle p)
     | none => id) <|
    match optUTF16Ptr opts.filename with
    | .error msg => panics msg
    | .ok none => showAndResolve sys
    | .ok (some p) =>
      call (.SHCreateItemFromParsingName p) <|
      if sys.parsedItem then
        call .DialogSetDefaultFolder <| call .FolderItemRelease <| showAndResolve sys
      else showAndResolve sys

/-- Go `SelectDirectory` (Windows), from the creation of the dialog object to
the end. -/
def createAndShow (sys : Native) (opts : ParsedOptions) : Run String :=
  call (.CoCreateInstance 0x17) <|
  if int32Neg sys.coCreateInstance then browseForFolder sys opts.title
  else
    defer .DialogRelease <|
    call .DialogGetOptions <|
    if int32Neg sys.getOptions then ret "" (some (.errno sys.getOptions))
    else
      call (.DialogSetOptions (sys.flgs ||| 0x68)) <|
      if int32Neg sys.setOptions then ret "" (some (.errno sys.setOptions))
      else configureAndShow sys opts

/-- Go `SelectDirectory` (Windows). -/
def SelectDirectory (sys : Native) (opts : ParsedOptions) : Run String :=
  call .LockOSThread <| defer .UnlockOSThread <|
  call (.CoInitializeEx 0x6) <|
  if sys.coInitializeEx ≠ 0x80010106 then
    if int32Neg sys.coInitializeEx then ret "" (some (.errno sys.coInitializeEx))
    else defer .CoUninit <| createAndShow sys opts
  else createAndShow sys opts

end Windows

/-! ## macOS adapter (`file_darwin.go`) -/

namespace Darwin

/-- The request record `osa.File` as the adapter fills it. -/
structure File where
  Operation : String
  Multiple : Bool
  Prompt : String
  Location : String
  /-- the field `Type` of `osa.File` -/
  Type_ : Slice String
  deriving DecidableEq, Repr

/-- Go `appleFilters`: all patterns of all filters, names dropped. -/
def appleFilters (filters : Slice FileFilter) : Slice String :=
  filters.elems.foldl (fun filter f =>
    f.Patterns.elems.foldl (fun filter p => filter.append [p]) filter) none

/-- Go `SelectFileMutiple` (macOS). `osaRun` is `osa.Run`, which is not in the
sources at hand: it answers with the script's standard output and an error,
`GoError.exitError c` standing for an `*exec.ExitError` with exit code `c`. -/
def SelectFileMutiple (osaRun : String → File → List Nat × Option GoError)
    (opts : ParsedOptions) : Slice (List Nat) × Option GoError :=
  let (out, err) := osaRun "file"
    { Operation := "chooseFile", Multiple := true, Prompt := opts.title,
      Location := opts.filename, Type_ := appleFilters opts.filters }
  match err with
  | some (.exitError 1) => (none, none)
  | some e => (none, some e)
  | none =>
    let out := if out.length > 0 then out.take (out.length - 1) else out
    if out.length = 0 then (none, none)
    else (some (stringsSplit 0 out), none)

end Darwin

/-! ## Option model (`zenity.go`) -/

/-- A Go interface value (`context.Context`, `color.Color`): nil or a value,
told apart by a handle. -/
inductive Interface
  | nil
  | value (handle : Nat)
  deriving DecidableEq, Repr

/-- Go `DialogIcon`, an `int`; `ErrorIcon` to `QuestionIcon` are 1 to 4. -/
abbrev DialogIcon := Int

/-- Go `options`, the record the options of a call are applied to. -/
structure options where
  title : String
  filename : String
  directory : Bool
  confirmOverwrite : Bool
  confirmCreate : Bool
  showHidden : Bool
  fileFilters : Slice FileFilter
  color : Interface
  showPalette : Bool
  icon : DialogIcon
  okLabel : String
  cancelLabel : String
  extraButton : String
  noWrap : Bool
  ellipsize : Bool
  defaultCancel : Bool
  multipleSelection : Bool
  ctx : Interface
  deriving DecidableEq, Repr

/-- The zero value of `options`, what `applyOptions` starts from. -/
def options.zero : options :=
  { title := "", filename := "", directory := false, confirmOverwrite := false,
    confirmCreate := false, showHidden := false, fileFilters := none, color := .nil,
    showPalette := false, icon := 0, okLabel := "", cancelLabel := "", extraButton := "",
    noWrap := false, ellipsize := false, defaultCancel := false,
    multipleSelection := false, ctx := .nil }

/-- Go `funcOption`, the one implementation of `Option`: a function that
updates the record it is applied to. -/
abbrev funcOption := options → options

/-- Go `applyOptions`: applies the options in call order to the zero record. -/
def applyOptions (opts : List funcOption) : options :=
  opts.foldl (fun res o => o res) options.zero

/-- Go `Title`. -/
def Title (title : String) : funcOption :=
  fun o => { o with title := title }

/-- Go `Icon`. -/
def Icon (icon : DialogIcon) : funcOption :=
  fun o => { o with icon := icon }

/-- Go `Context`. -/
def Context (ctx : Interface) : funcOption :=
  fun o => { o with ctx := ctx }

/-- The three option constructors of `zenity.go`, as data. -/
inductive OptionCtor
  | Title (title : String)
  | Icon (icon : DialogIcon)
  | Context (ctx : Interface)
  deriving DecidableEq, Repr

/-- The option a constructor call builds. -/
def OptionCtor.build : OptionCtor → funcOption
  | .Title t => Zenity.Title t
  | .Icon i => Zenity.Icon i
  | .Context c => Zenity.Context c

/-- Fields of `options` that the three constructors set. -/
inductive Field
  | title
  | icon
  | ctx
  deriving DecidableEq, Repr

/-- The field a constructor's option sets. -/
def OptionCtor.field : OptionCtor → Field
  | .Title _ => .title
  | .Icon _ => .icon
  | .Context _ => .ctx

/-- Value of a field of `options`, as a comparable value. -/
inductive FieldValue
  | str (s : String)
  | icon (i : DialogIcon)
  | iface (v : Interface)
  deriving DecidableEq, Repr

/-- Reads a field of an `options` record. -/
def options.get (o : options) : Field → FieldValue
  | .title => .str o.title
  | .icon => .icon o.icon
  | .ctx => .iface o.ctx

/-- The value a constructor call was given, as a field value. -/
def OptionCtor.value : OptionCtor → FieldValue
  | .Title t => .str t
  | .Icon i => .icon i
  | .Context c => .iface c

/-- The value the last constructor call for `field` in `calls` was given, or
`none` when no call sets that field. -/
def lastWrite (field : Field) : List OptionCtor → Option FieldValue
  | [] => none
  | c :: rest =>
    match lastWrite field rest with
    | some v => some v
    | none => if c.field = field then some c.value else none

/-! ## Command line front end (`cmd/zenity/main.go`) -/

namespace Cmd

/-- Go `strings.SplitN(s, sep, 2)` for a separator of one element, on the
elements of `s`: the part before the first separator and the whole rest after
it, or `s` alone when it holds no separator. -/
def stringsSplitN2 (sep : Nat) : List Nat → List (List Nat)
  | [] => [[]]
  | c :: cs =>
    if c = sep then [[], cs]
    else
      match stringsSplitN2 sep cs with
      | [] => [[c]]
      | h :: t => (c :: h) :: t

/-- Go `(*FileFilters).Set`, the parser of one `--file-filter` value. The
receiver's slice `f.FileFilters` is passed in and the updated slice is returned
with the error. The separators `"|"` and `" "` are single ASCII bytes, so the
string is split on its runes (124 and 32). -/
def FileFilters.Set (f : Slice FileFilter) (s : String) : Slice FileFilter × Option GoError :=
  let split := stringsSplitN2 124 (runes s)
  let name := if split.length > 1 then string (split.getD 0 []) else ""
  let s := if split.length > 1 then split.getD 1 [] else runes s
  let filter : FileFilter :=
    { Name := name, Patterns := some ((stringsSplit 32 s).map string) }
  (f.append [filter], none)

end Cmd

/-! ## Definitions the statements use -/

/-- The request `SelectFileMutiple` (macOS) hands to `osa.Run`. -/
def Darwin.request (opts : ParsedOptions) : Darwin.File :=
  { Operation := "chooseFile", Multiple := true, Prompt := opts.title,
    Location := opts.filename, Type_ := Darwin.appleFilters opts.filters }

/-- A rune that is a Unicode scalar value. -/
def validRune (v : Nat) : Prop :=
  v < utf16.surr1 ∨ (utf16.surr3 ≤ v ∧ v ≤ utf16.maxRune)

namespace Windows

/-- The runs of a buffer, each with its terminating NUL. -/
def layout (runs : List (List Nat)) : List Nat :=
  runs.flatMap fun r => r ++ [0]

/-- A result buffer of the multi-select dialog: the base, NUL, each name followed by
NUL, a second NUL, then `pad` zero units. With no names it holds one path. -/
def selectionBuffer (base : String) (names : List String) (pad : Nat) : List Nat :=
  utf16.Encode (runes base) ++ [0] ++
    (names.flatMap fun f => utf16.Encode (runes f) ++ [0]) ++ [0] ++ List.replicate pad 0

/-- A string that is not empty and holds no NUL. -/
def plain (s : String) : Prop :=
  s ≠ "" ∧ Char.ofNat 0 ∉ s.data

instance (s : String) : Decidable (plain s) := by
  unfold plain; exact inferInstance

/-- The units `windowsFilters` writes for one filter: the name, NUL, each
pattern followed by `';'`, NUL. -/
def filterUnits (f : FileFilter) : List Nat :=
  utf16.Encode (runes f.Name) ++ [0] ++
    (f.Patterns.elems.flatMap fun p => utf16.Encode (runes p) ++ [59]) ++ [0]

/-- The layout the filter claim describes for one filter: the name, NUL, the
patterns separated by `';'`, NUL. -/
def filterUnitsSeparated (f : FileFilter) : List Nat :=
  utf16.Encode (runes f.Name) ++ [0] ++
    [59].intercalate (f.Patterns.elems.map fun p => utf16.Encode (runes p)) ++ [0]

/-- Pairs up consecutive pieces. -/
def pairUp : List (List Nat) → List (List Nat × List Nat)
  | a :: b :: rest => (a, b) :: pairUp rest
  | _ => []

/-- The decoder the filter claim describes: split the buffer at NULs into
(name, pattern-string) pairs, up to the empty name of the final NUL, and each
pattern-string at `';'`. -/
def decodeFilterBuffer (buf : List Nat) : List (String × List String) :=
  ((pairUp (stringsSplit 0 buf)).takeWhile fun p => p.1 ≠ []).map fun p =>
    (string (utf16.Decode p.1), (stringsSplit 59 p.2).map fun u => string (utf16.Decode u))

/-- Text the filter claim admits for a name or a pattern: not empty, no NUL and
no `';'`. -/
def filterText (s : String) : Prop :=
  s ≠ "" ∧ Char.ofNat 0 ∉ s.data ∧ Char.ofNat 59 ∉ s.data

/-- A filter whose name and patterns are all `filterText`. -/
def filterOK (f : FileFilter) : Prop :=
  filterText f.Name ∧ ∀ p ∈ f.Patterns.elems, filterText p

instance (s : String) : Decidable (filterText s) := by
  unfold filterText; exact inferInstance

instance (f : FileFilter) : Decidable (filterOK f) := by
  unfold filterOK; exact inferInstance

/-- The filter of the claim's example. -/
def imagesFilter : FileFilter :=
  { Name := "Images", Patterns := some ["*.png", "*.jpg"] }

/-- Whether a run starts here: a non-zero unit with a NUL somewhere after it. -/
def startsRun : List Nat → Bool
  | [] => false
  | u :: rest => decide (u ≠ 0) && rest.contains 0

/-- Whether the buffer holds a path for the scan to find: after at most one
leading NUL it begins with a non-zero unit that a NUL follows. -/
def holdsPath : List Nat → Bool
  | [] => false
  | u :: rest => if u = 0 then startsRun rest else rest.contains 0

/-- A run in which every native call succeeds and the common dialog leaves
`buffer` in the result buffer. -/
def sysConfirmed (buffer : List Nat) : Native :=
  { getOpenFileName := 1, getSaveFileName := 1, fileBuffer := buffer,
    commDlgExtendedError := 0, coInitializeEx := 0, coCreateInstance := 0, getOptions := 0,
    flgs := 0, setOptions := 0, parsedItem := false, dialogShow := 0, getResult := 0,
    getDisplayName := 0, namePtr := 1, nameMem := [], shBrowseForFolder := 0,
    pathBuffer := [] }

/-- How often `CoUninitialize` occurs in a trace. -/
def teardowns (trace : List Call) : Nat :=
  trace.count .CoUninit

/-- A run of `SelectDirectory`: every native call succeeds, but for the values
given for the initializer, the creation of the dialog and the `Show` call, and
the legacy browser answers with the item `item`. -/
def sysDirectory (init create dialogShow item : Nat) : Native :=
  { getOpenFileName := 1, getSaveFileName := 1, fileBuffer := [],
    commDlgExtendedError := 0, coInitializeEx := init, coCreateInstance := create,
    getOptions := 0, flgs := 0, setOptions := 0, parsedItem := true,
    dialogShow := dialogShow, getResult := 0, getDisplayName := 0, namePtr := 64,
    nameMem := [67, 58, 92, 100, 0, 0], shBrowseForFolder := item,
    pathBuffer := [67, 58, 92, 111, 108, 100, 0, 0] }

end Windows

namespace Cmd

/-- The pieces `ls` written one after the other with `sep` between them. -/
def joinWith {α : Type} (sep : α) : List (List α) → List α
  | [] => []
  | [l] => l
  | l :: m :: rest => l ++ sep :: joinWith sep (m :: rest)

/-- The form the usage text of `--file-filter` documents,
`NAME | PATTERN1 PATTERN2 ...`: the name, a blank, `|`, a blank, and the
patterns with one blank between them. -/
def documentedForm (name : String) (patterns : List String) : String :=
  String.mk (name.data ++ [Char.ofNat 32, Char.ofNat 124, Char.ofNat 32] ++
    joinWith (Char.ofNat 32) (patterns.map String.data))

/-- The same value written without blanks around `|`: `NAME|PATTERN1 PATTERN2 ...`. -/
def compactForm (name : String) (patterns : List String) : String :=
  String.mk (name.data ++ [Char.ofNat 124] ++
    joinWith (Char.ofNat 32) (patterns.map String.data))

end Cmd

/-! # Theorems -/

/-! ## UTF-16 round trip -/

theorem utf16.encodeRune_fst (v : Nat) :
    (utf16.EncodeRune v).1 = 0xd800 + ((v - 0x10000) / 1024) % 1024 := by
  have h := Nat.and_pow_two_sub_one_eq_mod ((v - 0x10000) >>> 10) 10
  have h2 := Nat.shiftRight_eq_div_pow (v - 0x10000) 10
  simp only [utf16.EncodeRune, utf16.surr1, utf16.surrSelf]
  norm_num at h h2 ⊢
  rw [h, h2]

theorem utf16.encodeRune_snd (v : Nat) :
    (utf16.EncodeRune v).2 = 0xdc00 + (v - 0x10000) % 1024 := by
  have h := Nat.and_pow_two_sub_one_eq_mod (v - 0x10000) 10
  simp only [utf16.EncodeRune, utf16.surr2, utf16.surrSelf]
  norm_num at h ⊢
  rw [h]

theorem utf16.decodeRune_eq (a b : Nat) (hb : b < 1024) :
    utf16.DecodeRune (0xd800 + a) (0xdc00 + b) = a * 1024 + b + 0x10000 := by
  have h := Nat.mul_add_lt_is_or (i := 10) (by simpa using hb) a
  simp only [utf16.DecodeRune, utf16.surr1, utf16.surr2, utf16.surrSelf, Nat.shiftLeft_eq]
  norm_num at h ⊢
  rw [Nat.mul_comm a 1024, ← h]


theorem utf16.decode_encode1 (v : Nat) (hv : validRune v) (rest : List Nat) :
    utf16.Decode (utf16.encode1 v ++ rest) = v :: utf16.Decode rest := by
  unfold validRune at hv
  simp only [utf16.surr1, utf16.surr3, utf16.maxRune] at hv
  by_cases h1 : v < 0xd800 ∨ (0xe000 ≤ v ∧ v < 0x10000)
  · have e : utf16.encode1 v = [v] := by
      simp only [utf16.encode1, utf16.surr1, utf16.surr3, utf16.surrSelf]
      rw [if_pos h1]
    have hn : v < 0xd800 ∨ 0xe000 ≤ v := by omega
    rw [e]
    cases rest with
    | nil => simp [utf16.Decode, utf16.surr1, utf16.surr3, hn]
    | cons r2 rest => simp [utf16.Decode, utf16.surr1, utf16.surr3, hn]
  · have h2 : 0x10000 ≤ v ∧ v ≤ 0x10FFFF := by omega
    have e : utf16.encode1 v =
        [0xd800 + ((v - 0x10000) / 1024) % 1024, 0xdc00 + (v - 0x10000) % 1024] := by
      simp only [utf16.encode1, utf16.surr1, utf16.surr3, utf16.surrSelf, utf16.maxRune]
      rw [if_neg h1, if_pos h2, utf16.encodeRune_fst, utf16.encodeRune_snd]
    rw [e]
    have hlo : (v - 0x10000) % 1024 < 1024 := Nat.mod_lt _ (by norm_num)
    have hd := utf16.decodeRune_eq (((v - 0x10000) / 1024) % 1024) ((v - 0x10000) % 1024) hlo
    have hval : ((v - 0x10000) / 1024) % 1024 * 1024 + (v - 0x10000) % 1024 + 0x10000 = v := by
      omega
    have c1 : ¬ (0xd800 + ((v - 0x10000) / 1024) % 1024 < 0xd800 ∨
        0xe000 ≤ 0xd800 + ((v - 0x10000) / 1024) % 1024) := by omega
    have c2 : 0xd800 ≤ 0xd800 + ((v - 0x10000) / 1024) % 1024 ∧
        0xd800 + ((v - 0x10000) / 1024) % 1024 < 0xdc00 ∧
        0xdc00 ≤ 0xdc00 + (v - 0x10000) % 1024 ∧ 0xdc00 + (v - 0x10000) % 1024 < 0xe000 := by
      omega
    simp only [List.cons_append, List.nil_append, utf16.Decode, utf16.surr1, utf16.surr2,
      utf16.surr3]
    rw [if_neg c1, if_pos c2, hd, hval]
    rfl

theorem utf16.decode_encode (s : List Nat) (hs : ∀ v ∈ s, validRune v) :
    utf16.Decode (utf16.Encode s) = s := by
  induction s with
  | nil => simp [utf16.Encode, utf16.Decode]
  | cons v s ih =>
    have h1 : utf16.Encode (v :: s) = utf16.encode1 v ++ utf16.Encode s := by
      simp [utf16.Encode]
    rw [h1, utf16.decode_encode1 v (hs v (by simp)), ih (fun w hw => hs w (by simp [hw]))]

theorem validRune_toNat (c : Char) : validRune c.toNat := by
  have h := c.valid
  simp only [UInt32.isValidChar, Nat.isValidChar] at h
  simp only [validRune, utf16.surr1, utf16.surr3, utf16.maxRune, Char.toNat]
  omega

theorem string_runes (s : String) : string (runes s) = s := by
  have h : ∀ l : List Char, (l.map Char.toNat).map (fun r =>
      if r < utf16.surr1 ∨ (utf16.surr3 ≤ r ∧ r ≤ utf16.maxRune) then Char.ofNat r
      else Char.ofNat utf16.replacementChar) = l := by
    intro l
    induction l with
    | nil => rfl
    | cons c l ih =>
      have hc := validRune_toNat c
      unfold validRune at hc
      simp only [List.map_cons, ih, if_pos hc, Char.ofNat_toNat]
  simp only [string, runes, h]

/-- Decoding the UTF-16 encoding of a string gives the string back. -/
theorem string_decode_encode (s : String) :
    string (utf16.Decode (utf16.Encode (runes s))) = s := by
  rw [utf16.decode_encode, string_runes]
  intro v hv
  simp only [runes, List.mem_map] at hv
  obtain ⟨c, _, rfl⟩ := hv
  exact validRune_toNat c

/-- A unit below the surrogate range occurs in an encoding only as the encoding
of the rune with that value. -/
theorem utf16.mem_encode_small (u : Nat) (hu : u < 0xd800) (s : List Nat)
    (h : u ∈ utf16.Encode s) : u ∈ s := by
  simp only [utf16.Encode, List.mem_flatMap] at h
  obtain ⟨v, hv, hmem⟩ := h
  have : u = v := by
    simp only [utf16.encode1, utf16.surr1, utf16.surr3, utf16.surrSelf, utf16.maxRune,
      utf16.replacementChar] at hmem
    split at hmem
    · simpa using hmem
    · split at hmem
      · rw [utf16.encodeRune_fst, utf16.encodeRune_snd] at hmem
        simp only [List.mem_cons, List.mem_singleton, List.not_mem_nil, or_false] at hmem
        omega
      · simp only [List.mem_singleton] at hmem
        omega
  rw [this]; exact hv

theorem mem_runes_small (u : Nat) (hu : u < 0xd800) (s : String) (h : u ∈ runes s) :
    Char.ofNat u ∈ s.data := by
  simp only [runes, List.mem_map] at h
  obtain ⟨c, hc, rfl⟩ := h
  rw [Char.ofNat_toNat]; exact hc

theorem utf16.encode_eq_nil (s : List Nat) (h : utf16.Encode s = []) : s = [] := by
  cases s with
  | nil => rfl
  | cons v s =>
    exfalso
    have h1 : utf16.Encode (v :: s) = utf16.encode1 v ++ utf16.Encode s := by
      simp [utf16.Encode]
    rw [h1] at h
    have : utf16.encode1 v ≠ [] := by
      simp only [utf16.encode1]
      split
      · simp
      · split <;> simp
    exact this (List.append_eq_nil.1 h).1

namespace Windows

/-! ## The scan of the multi-select buffer -/

theorem subslice_mid (pre r rest : List Nat) :
    subslice (pre ++ (r ++ rest)) pre.length (pre.length + r.length) = r := by
  simp [subslice]

theorem scan_nonzero (res rest : List Nat) (i : Nat) (split : Slice String) :
    ∀ (r : List Nat) (j : Nat), (∀ u ∈ r, u ≠ 0) →
      scan res (r ++ rest) j i false split = scan res rest (j + r.length) i false split := by
  intro r
  induction r with
  | nil => intro j _; simp
  | cons u r ih =>
    intro j h
    have hu : u ≠ 0 := h u (by simp)
    have hr : ∀ w ∈ r, w ≠ 0 := fun w hw => h w (by simp [hw])
    have e : j + 1 + r.length = j + (r.length + 1) := by omega
    rw [List.cons_append, scan, if_neg hu, ih (j + 1) hr, List.length_cons, e]

theorem scan_nonzero_cons (res rest : List Nat) (i j : Nat) (nul : Bool) (split : Slice String)
    (u : Nat) (r : List Nat) (h : ∀ w ∈ u :: r, w ≠ 0) :
    scan res (u :: r ++ rest) j i nul split =
      scan res rest (j + (u :: r).length) i false split := by
  have hu : u ≠ 0 := h u (by simp)
  have hr : ∀ w ∈ r, w ≠ 0 := fun w hw => h w (by simp [hw])
  have e : j + 1 + r.length = j + (r.length + 1) := by omega
  rw [List.cons_append, scan, if_neg hu, scan_nonzero res rest i split r (j + 1) hr,
    List.length_cons, e]

/-- One run followed by its NUL: the run is decoded and appended. -/
theorem scan_run (pre r tail : List Nat) (nul : Bool) (split : Slice String)
    (hne : r ≠ []) (h : ∀ w ∈ r, w ≠ 0) (res : List Nat)
    (hres : res = pre ++ (r ++ 0 :: tail)) :
    scan res (r ++ 0 :: tail) pre.length pre.length nul split =
      scan res tail (pre.length + r.length + 1) (pre.length + r.length + 1) true
        (split.append [string (utf16.Decode r)]) := by
  cases r with
  | nil => exact absurd rfl hne
  | cons u r =>
    rw [scan_nonzero_cons res (0 :: tail) pre.length pre.length nul split u r h]
    have hlt : pre.length < pre.length + (u :: r).length := by simp
    have hsub : subslice res pre.length (pre.length + (u :: r).length) = u :: r := by
      rw [hres]; exact subslice_mid pre (u :: r) (0 :: tail)
    simp only [scan, if_true, if_pos hlt, hsub]
    rfl

theorem scan_runs (pad : List Nat) :
    ∀ (runs : List (List Nat)) (pre : List Nat) (nul : Bool) (split : Slice String)
      (res : List Nat),
      (∀ r ∈ runs, r ≠ [] ∧ ∀ w ∈ r, w ≠ 0) → (runs = [] → nul = true) →
      res = pre ++ (layout runs ++ 0 :: pad) →
      scan res (layout runs ++ 0 :: pad) pre.length pre.length nul split =
        runs.foldl (fun s r => s.append [string (utf16.Decode r)]) split := by
  intro runs
  induction runs with
  | nil =>
    intro pre nul split res _ hn _
    simp [layout, scan, hn rfl]
  | cons r rs ih =>
    intro pre nul split res h _ hres
    have hr := h r (by simp)
    have hl : layout (r :: rs) ++ 0 :: pad = r ++ 0 :: (layout rs ++ 0 :: pad) := by
      simp [layout]
    rw [hl] at hres ⊢
    rw [scan_run pre r (layout rs ++ 0 :: pad) nul split hr.1 hr.2 res hres]
    have hlen : pre.length + r.length + 1 = (pre ++ r ++ [0]).length := by
      simp [Nat.add_assoc]
    rw [hlen]
    rw [ih (pre ++ r ++ [0]) true _ res (fun q hq => h q (by simp [hq])) (fun _ => rfl)
      (by rw [hres]; simp)]
    rfl

theorem foldl_append_elems {α β : Type} (f : α → β) :
    ∀ (l : List α) (s : Slice β), l ≠ [] →
      l.foldl (fun s r => s.append [f r]) s = some (s.elems ++ l.map f) := by
  intro l
  induction l with
  | nil => intro s h; exact absurd rfl h
  | cons a l ih =>
    intro s _
    cases l with
    | nil => simp [Slice.append]
    | cons b l =>
      rw [List.foldl_cons, ih _ (by simp)]
      simp [Slice.append, Slice.elems]

/-! ## The join loop -/

theorem set_at_length {α : Type} (done : List α) (x y : α) (rest : List α) :
    (done ++ x :: rest).set done.length y = done ++ y :: rest := by
  induction done with
  | nil => rfl
  | cons a done ih => simp [List.set, ih]

theorem getD_at_length_succ {α : Type} (done : List α) (x t d : α) (rest : List α) :
    (done ++ x :: t :: rest).getD (done.length + 1) d = t := by
  induction done with
  | nil => rfl
  | cons a done ih => simpa [List.getD] using ih

theorem joinLoop_spec (join : String → String → String) (base : String) :
    ∀ (todo done : List String) (x : String),
      joinLoop join base todo.length done.length (done ++ x :: todo) =
        done ++ todo.map (join base) ++ [(x :: todo).getLast (by simp)] := by
  intro todo
  induction todo with
  | nil => intro done x; simp [joinLoop]
  | cons t todo ih =>
    intro done x
    simp only [List.length_cons, joinLoop, getD_at_length_succ, set_at_length]
    have h := ih (done ++ [join base t]) t
    simp only [List.length_append, List.length_singleton, List.append_assoc,
      List.singleton_append] at h
    rw [h]
    simp


theorem plain_run (s : String) (h : plain s) :
    utf16.Encode (runes s) ≠ [] ∧ ∀ w ∈ utf16.Encode (runes s), w ≠ 0 := by
  constructor
  · intro he
    have h1 := utf16.encode_eq_nil _ he
    simp only [runes, List.map_eq_nil_iff] at h1
    apply h.1
    cases s
    simp_all
  · intro w hw hw0
    subst hw0
    exact h.2 (mem_runes_small 0 (by norm_num) s (utf16.mem_encode_small 0 (by norm_num) _ hw))

theorem scan_selectionBuffer (base : String) (names : List String) (pad : Nat)
    (hb : plain base) (hn : ∀ f ∈ names, plain f) :
    scan (selectionBuffer base names pad) (selectionBuffer base names pad) 0 0 false none =
      some (base :: names) := by
  have hl : selectionBuffer base names pad =
      layout ((base :: names).map fun s => utf16.Encode (runes s)) ++
        0 :: List.replicate pad 0 := by
    simp [selectionBuffer, layout, List.flatMap_map]
  have hruns : ∀ r ∈ (base :: names).map (fun s => utf16.Encode (runes s)),
      r ≠ [] ∧ ∀ w ∈ r, w ≠ 0 := by
    intro r hr
    simp only [List.mem_map] at hr
    obtain ⟨s, hs, rfl⟩ := hr
    rcases List.mem_cons.1 hs with rfl | hs
    · exact plain_run _ hb
    · exact plain_run s (hn s hs)
  have h := scan_runs (List.replicate pad 0) _ [] false none
    (selectionBuffer base names pad) hruns (by simp) (by rw [hl]; rfl)
  rw [← hl] at h
  simp only [List.length_nil] at h
  rw [h, foldl_append_elems _ _ _ (by simp)]
  have hmap : List.map ((fun r => string (utf16.Decode r)) ∘
      fun s => utf16.Encode (runes s)) names = names := by
    conv_rhs => rw [← List.map_id names]
    apply List.map_congr_left
    intro s _
    simp [string_decode_encode]
  simp [Slice.elems, string_decode_encode, hmap]

/-- Decoding of a buffer laid out as the claims describe: one path comes back
as it is, a base with names comes back as the joined paths. -/
theorem decodeSelection_selectionBuffer (join : String → String → String) (base : String)
    (names : List String) (pad : Nat) (hb : plain base) (hn : ∀ f ∈ names, plain f) :
    decodeSelection join (selectionBuffer base names pad) =
      if names = [] then some [base] else some (names.map (join base)) := by
  simp only [decodeSelection, scan_selectionBuffer base names pad hb hn, Slice.elems]
  cases names with
  | nil => simp
  | cons f names =>
    have hlen : ((base :: f :: names).length : Int) - 1 = ((f :: names).length : Nat) := by
      simp
    have hpos : (((f :: names).length : Nat) : Int) > 0 := by simp
    rw [hlen, if_pos hpos, Int.toNat_ofNat]
    have h := joinLoop_spec join base (f :: names) [] base
    simp only [List.length_nil, List.nil_append] at h
    have hg : (base :: f :: names).getD 0 "" = base := rfl
    rw [hg, h]
    simp

/-! ## C1, C2: decoding of the multi-select buffer -/

/-- C1: for every non-empty, NUL-free base directory and every list of one or
more non-empty, NUL-free file names, the result buffer holding the base, NUL,
each name followed by NUL, a second NUL and zero padding decodes to exactly the
paths `join base f` for the names `f`, in order, the base itself left out; and
that is what `SelectFileMutiple` returns, with a nil error, whenever the native
dialog reports success with such a buffer. -/
theorem multi_select_buffer_decodes_to_joined_paths (join : String → String → String)
    (base : String) (names : List String) (pad : Nat)
    (hb : plain base) (hne : names ≠ []) (hn : ∀ f ∈ names, plain f) :
    decodeSelection join (selectionBuffer base names pad) = some (names.map (join base)) ∧
    ∀ (splitDirAndName : String → String × String) (sys : Native) (opts : ParsedOptions)
      (args : OPENFILENAME),
      openFileNameArgs splitDirAndName 0x80208 (32768 + 1024 * 256) opts = .ok args →
      sys.getOpenFileName ≠ 0 → sys.fileBuffer = selectionBuffer base names pad →
      (SelectFileMutiple join splitDirAndName sys opts).outcome =
        .returned (some (names.map (join base))) none := by
  have hd := decodeSelection_selectionBuffer join base names pad hb hn
  rw [if_neg hne] at hd
  refine ⟨hd, ?_⟩
  intro sdn sys opts args hargs hcall hbuf
  simp only [SelectFileMutiple, hargs, if_neg hcall, call, defer, ret, hbuf, hd]

/-- The buffer `"C:\dir\0a.txt\0b.txt\0\0"` with four units of padding decodes
to the two joined paths, and a call that finds it returns them. -/
theorem multi_select_buffer_decodes_to_joined_paths_witness :
    decodeSelection (fun d f => d ++ "\\" ++ f)
        (selectionBuffer "C:\\dir" ["a.txt", "b.txt"] 4) =
      some (["a.txt", "b.txt"].map ((fun d f => d ++ "\\" ++ f) "C:\\dir")) ∧
    (SelectFileMutiple (fun d f => d ++ "\\" ++ f) (fun s => ("", s))
        (sysConfirmed (selectionBuffer "C:\\dir" ["a.txt", "b.txt"] 4))
        ⟨"Open", "", false, none⟩).outcome =
      .returned (some (["a.txt", "b.txt"].map ((fun d f => d ++ "\\" ++ f) "C:\\dir"))) none :=
  ⟨(multi_select_buffer_decodes_to_joined_paths (fun d f => d ++ "\\" ++ f)
      "C:\\dir" ["a.txt", "b.txt"] 4 (by decide) (by decide) (by decide)).1,
   (multi_select_buffer_decodes_to_joined_paths (fun d f => d ++ "\\" ++ f)
      "C:\\dir" ["a.txt", "b.txt"] 4 (by decide) (by decide) (by decide)).2
      (fun s => ("", s)) (sysConfirmed (selectionBuffer "C:\\dir" ["a.txt", "b.txt"] 4))
      ⟨"Open", "", false, none⟩ _ rfl (by decide) rfl⟩

/-- C2: for every non-empty, NUL-free path `p`, the result buffer holding `p`,
NUL, NUL and zero padding decodes to the one-element sequence `[p]`, with no
join applied; and that is what `SelectFileMutiple` returns, with a nil error,
whenever the native dialog reports success with such a buffer. -/
theorem single_path_buffer_decodes_unchanged (join : String → String → String)
    (p : String) (pad : Nat) (hp : plain p) :
    decodeSelection join (utf16.Encode (runes p) ++ [0, 0] ++ List.replicate pad 0) =
      some [p] ∧
    ∀ (splitDirAndName : String → String × String) (sys : Native) (opts : ParsedOptions)
      (args : OPENFILENAME),
      openFileNameArgs splitDirAndName 0x80208 (32768 + 1024 * 256) opts = .ok args →
      sys.getOpenFileName ≠ 0 →
      sys.fileBuffer = utf16.Encode (runes p) ++ [0, 0] ++ List.replicate pad 0 →
      (SelectFileMutiple join splitDirAndName sys opts).outcome =
        .returned (some [p]) none := by
  have hb : utf16.Encode (runes p) ++ [0, 0] ++ List.replicate pad 0 =
      selectionBuffer p [] pad := by
    simp [selectionBuffer]
  have hd := decodeSelection_selectionBuffer join p [] pad hp (by simp)
  rw [if_pos rfl, ← hb] at hd
  refine ⟨hd, ?_⟩
  intro sdn sys opts args hargs hcall hbuf
  simp only [SelectFileMutiple, hargs, if_neg hcall, call, defer, ret, hbuf, hd]

/-- The buffer `"C:\dir\a.txt\0\0"` with four units of padding decodes to the
path it holds, and a call that finds it returns that path. -/
theorem single_path_buffer_decodes_unchanged_witness :
    decodeSelection (fun d f => d ++ "\\" ++ f)
        (utf16.Encode (runes "C:\\dir\\a.txt") ++ [0, 0] ++ List.replicate 4 0) =
      some ["C:\\dir\\a.txt"] ∧
    (SelectFileMutiple (fun d f => d ++ "\\" ++ f) (fun s => ("", s))
        (sysConfirmed (utf16.Encode (runes "C:\\dir\\a.txt") ++ [0, 0] ++ List.replicate 4 0))
        ⟨"Open", "", false, none⟩).outcome = .returned (some ["C:\\dir\\a.txt"]) none :=
  ⟨(single_path_buffer_decodes_unchanged (fun d f => d ++ "\\" ++ f)
      "C:\\dir\\a.txt" 4 (by decide)).1,
   (single_path_buffer_decodes_unchanged (fun d f => d ++ "\\" ++ f)
      "C:\\dir\\a.txt" 4 (by decide)).2
      (fun s => ("", s))
      (sysConfirmed (utf16.Encode (runes "C:\\dir\\a.txt") ++ [0, 0] ++ List.replicate 4 0))
      ⟨"Open", "", false, none⟩ _ rfl (by decide) rfl⟩

/-! ## The filter buffer -/

theorem Slice.elems_append {α : Type} (s : Slice α) (xs : List α) :
    (s.append xs).elems = s.elems ++ xs := by
  cases xs with
  | nil => simp [Slice.append]
  | cons x xs => simp [Slice.append, Slice.elems]

theorem Slice.elems_some {α : Type} (l : List α) : Slice.elems (some l) = l := rfl

theorem Slice.append_cons {α : Type} (s : Slice α) (x : α) (xs : List α) :
    s.append (x :: xs) = some (s.elems ++ x :: xs) := rfl

theorem appendPatterns_elems (ps : List String) :
    ∀ res : Slice Nat, (appendPatterns res ps).elems =
      res.elems ++ ps.flatMap fun p => utf16.Encode (runes p) ++ [59] := by
  induction ps with
  | nil => intro res; simp [appendPatterns]
  | cons p ps ih =>
    intro res
    have h := ih ((res.append (utf16.Encode (runes p))).append [59])
    simp only [appendPatterns, List.foldl_cons] at h ⊢
    rw [h]
    simp [Slice.elems_append]

theorem windowsFilters_fold (fs : List FileFilter) :
    ∀ res : Slice Nat, res ≠ none ∨ fs ≠ [] →
      fs.foldl (fun res f =>
        let res := res.append (utf16.Encode (runes f.Name))
        let res := res.append [0]
        let res := appendPatterns res f.Patterns.elems
        res.append [0]) res = some (res.elems ++ fs.flatMap filterUnits) := by
  induction fs with
  | nil =>
    intro res h
    cases res with
    | none => simp at h
    | some l => simp [Slice.elems]
  | cons f fs ih =>
    intro res _
    rw [List.foldl_cons, ih _ (Or.inl (by simp [Slice.append_cons]))]
    simp [Slice.append_cons, Slice.elems_some, appendPatterns_elems, Slice.elems_append,
      filterUnits]

/-- What `windowsFilters` returns: nil for no filters, else the units of each
filter in order and one final NUL. -/
theorem windowsFilters_eq (filters : Slice FileFilter) :
    windowsFilters filters =
      if filters.elems = [] then none
      else some (filters.elems.flatMap filterUnits ++ [0]) := by
  by_cases h : filters.elems = []
  · simp [windowsFilters, h]
  · have hf := windowsFilters_fold filters.elems none (Or.inr h)
    simp only [windowsFilters, hf, if_neg h]
    simp [Slice.append_cons, Slice.elems]


/-! ## Splitting at a separator -/

theorem stringsSplit_run (sep : Nat) (rest : List Nat) :
    ∀ r : List Nat, sep ∉ r →
      stringsSplit sep (r ++ sep :: rest) = r :: stringsSplit sep rest := by
  intro r
  induction r with
  | nil => intro _; simp [stringsSplit]
  | cons c r ih =>
    intro h
    have hc : c ≠ sep := fun e => h (by simp [e])
    have hr : sep ∉ r := fun e => h (by simp [e])
    rw [List.cons_append, stringsSplit, if_neg hc, ih hr]

theorem encode_no_small (u : Nat) (hu : u < 0xd800) (s : String)
    (h : Char.ofNat u ∉ s.data) : u ∉ utf16.Encode (runes s) :=
  fun hm => h (mem_runes_small u hu s (utf16.mem_encode_small u hu _ hm))

theorem encode_ne_nil (s : String) (h : s ≠ "") : utf16.Encode (runes s) ≠ [] := by
  intro he
  have h1 := utf16.encode_eq_nil _ he
  simp only [runes, List.map_eq_nil_iff] at h1
  apply h
  cases s
  simp_all

/-- Splitting the pattern string `windowsFilters` writes gives the encoded
patterns and one empty piece after the last `';'`. -/
theorem split_patterns (ps : List String) (h : ∀ p ∈ ps, Char.ofNat 59 ∉ p.data) :
    stringsSplit 59 (ps.flatMap fun p => utf16.Encode (runes p) ++ [59]) =
      ps.map (fun p => utf16.Encode (runes p)) ++ [[]] := by
  induction ps with
  | nil => simp [stringsSplit]
  | cons p ps ih =>
    have hp := encode_no_small 59 (by norm_num) p (h p (by simp))
    have e : (p :: ps).flatMap (fun p => utf16.Encode (runes p) ++ [59]) =
        utf16.Encode (runes p) ++ 59 :: (ps.flatMap fun p => utf16.Encode (runes p) ++ [59]) := by
      simp
    rw [e, stringsSplit_run 59 _ _ hp, ih (fun q hq => h q (by simp [hq]))]
    simp

theorem patterns_no_nul (ps : List String) (h : ∀ p ∈ ps, Char.ofNat 0 ∉ p.data) :
    0 ∉ ps.flatMap fun p => utf16.Encode (runes p) ++ [59] := by
  intro hm
  simp only [List.mem_flatMap, List.mem_append, List.mem_singleton] at hm
  obtain ⟨p, hp, h0 | h0⟩ := hm
  · exact encode_no_small 0 (by norm_num) p (h p hp) h0
  · omega

/-- Splitting the filter buffer at NULs gives, per filter, the encoded name and
the pattern string, and two empty pieces for the final NULs. -/
theorem split_filter_buffer (fs : List FileFilter)
    (h : ∀ f ∈ fs, Char.ofNat 0 ∉ f.Name.data ∧
      ∀ p ∈ f.Patterns.elems, Char.ofNat 0 ∉ p.data) :
    stringsSplit 0 (fs.flatMap filterUnits ++ [0]) =
      (fs.flatMap fun f => [utf16.Encode (runes f.Name),
        f.Patterns.elems.flatMap fun p => utf16.Encode (runes p) ++ [59]]) ++ [[], []] := by
  induction fs with
  | nil => simp [stringsSplit]
  | cons f fs ih =>
    have hf := h f (by simp)
    have e : (f :: fs).flatMap filterUnits ++ [0] =
        utf16.Encode (runes f.Name) ++ 0 ::
          ((f.Patterns.elems.flatMap fun p => utf16.Encode (runes p) ++ [59]) ++ 0 ::
            (fs.flatMap filterUnits ++ [0])) := by
      simp [filterUnits]
    rw [e, stringsSplit_run 0 _ _ (encode_no_small 0 (by norm_num) _ hf.1),
      stringsSplit_run 0 _ _ (patterns_no_nul _ hf.2), ih (fun g hg => h g (by simp [hg]))]
    simp

theorem pairUp_flatMap (a b : FileFilter → List Nat) (tail : List (List Nat)) :
    ∀ fs : List FileFilter,
      pairUp ((fs.flatMap fun f => [a f, b f]) ++ tail) =
        fs.map (fun f => (a f, b f)) ++ pairUp tail := by
  intro fs
  induction fs with
  | nil => simp
  | cons f fs ih =>
    have e : ((f :: fs).flatMap fun f => [a f, b f]) ++ tail =
        a f :: b f :: ((fs.flatMap fun f => [a f, b f]) ++ tail) := by simp
    rw [e, pairUp, ih]
    simp

theorem takeWhile_names (a b : FileFilter → List Nat) :
    ∀ fs : List FileFilter, (∀ f ∈ fs, a f ≠ []) →
      ((fs.map fun f => (a f, b f)) ++ [([], [])]).takeWhile (fun p => decide (p.1 ≠ [])) =
        fs.map fun f => (a f, b f) := by
  intro fs
  induction fs with
  | nil => intro _; simp
  | cons f fs ih =>
    intro h
    have hf := h f (by simp)
    simp only [List.map_cons, List.cons_append]
    rw [List.takeWhile_cons_of_pos (by simpa using hf), ih (fun g hg => h g (by simp [hg]))]

theorem decode_patterns (ps : List String) :
    (ps.map fun p => utf16.Encode (runes p)).map (fun u => string (utf16.Decode u)) = ps := by
  induction ps with
  | nil => rfl
  | cons p ps ih => simp only [List.map_cons, ih, string_decode_encode]

/-- Decoding the buffer `windowsFilters` lays out gives back each name, and each
pattern list followed by one empty pattern. -/
theorem decodeFilterBuffer_filterUnits (fs : List FileFilter) (h : ∀ f ∈ fs, filterOK f) :
    decodeFilterBuffer (fs.flatMap filterUnits ++ [0]) =
      fs.map fun f => (f.Name, f.Patterns.elems ++ [""]) := by
  have h0 : ∀ f ∈ fs, Char.ofNat 0 ∉ f.Name.data ∧
      ∀ p ∈ f.Patterns.elems, Char.ofNat 0 ∉ p.data :=
    fun f hf => ⟨(h f hf).1.2.1, fun p hp => ((h f hf).2 p hp).2.1⟩
  have hne : ∀ f ∈ fs, utf16.Encode (runes f.Name) ≠ [] :=
    fun f hf => encode_ne_nil _ (h f hf).1.1
  have hp : pairUp [[], []] = [(([] : List Nat), ([] : List Nat))] := rfl
  simp only [decodeFilterBuffer, split_filter_buffer fs h0, pairUp_flatMap, hp,
    takeWhile_names _ _ fs hne, List.map_map]
  apply List.map_congr_left
  intro f hf
  have hs := split_patterns f.Patterns.elems (fun p hp => ((h f hf).2 p hp).2.2)
  simp only [Function.comp, string_decode_encode, hs, List.map_append, decode_patterns]
  rfl


/-! ## C3: the filter buffer -/

/-- C3, as the claim states it, fails for the filter `Images` with patterns
`*.png` and `*.jpg`: `windowsFilters` writes `Images NUL *.png;*.jpg; NUL NUL`,
with a `';'` after the last pattern too, which is not the layout with the
patterns separated by `';'`, and splitting the pattern string at `';'` gives a
third, empty pattern. -/
theorem filter_buffer_semicolon_after_last_pattern :
    windowsFilters (some [imagesFilter]) =
      some [73, 109, 97, 103, 101, 115, 0, 42, 46, 112, 110, 103, 59,
        42, 46, 106, 112, 103, 59, 0, 0] ∧
    windowsFilters (some [imagesFilter]) ≠
      some ([imagesFilter].flatMap filterUnitsSeparated ++ [0]) ∧
    decodeFilterBuffer (windowsFilters (some [imagesFilter])).elems =
      [("Images", ["*.png", "*.jpg", ""])] ∧
    decodeFilterBuffer (windowsFilters (some [imagesFilter])).elems ≠
      [("Images", ["*.png", "*.jpg"])] := by
  refine ⟨by decide, by decide, by decide, by decide⟩

/-- C3, amended: for every non-empty list of filters whose names and patterns
are non-empty and hold neither NUL nor `';'`, `windowsFilters` returns the
buffer that is, per filter in order, the name, NUL, each pattern followed by
`';'`, NUL, and then one final NUL; splitting that buffer at NULs into (name,
pattern-string) pairs and each pattern-string at `';'` gives back each filter's
name and its patterns followed by one empty string, so that dropping that last
piece gives back exactly the patterns. -/
theorem filter_buffer_round_trip (filters : List FileFilter) (hne : filters ≠ [])
    (h : ∀ f ∈ filters, filterOK f) :
    windowsFilters (some filters) = some (filters.flatMap filterUnits ++ [0]) ∧
    decodeFilterBuffer (filters.flatMap filterUnits ++ [0]) =
      filters.map (fun f => (f.Name, f.Patterns.elems ++ [""])) ∧
    (decodeFilterBuffer (filters.flatMap filterUnits ++ [0])).map
        (fun q => (q.1, q.2.dropLast)) =
      filters.map (fun f => (f.Name, f.Patterns.elems)) := by
  have hw := windowsFilters_eq (some filters)
  rw [Slice.elems_some, if_neg hne] at hw
  have hd := decodeFilterBuffer_filterUnits filters h
  refine ⟨hw, hd, ?_⟩
  rw [hd, List.map_map]
  apply List.map_congr_left
  intro f _
  simp

/-- The filter `Images` with patterns `*.png` and `*.jpg` round-trips. -/
theorem filter_buffer_round_trip_witness :
    windowsFilters (some [imagesFilter]) =
      some ([imagesFilter].flatMap filterUnits ++ [0]) ∧
    decodeFilterBuffer ([imagesFilter].flatMap filterUnits ++ [0]) =
      [imagesFilter].map (fun f => (f.Name, f.Patterns.elems ++ [""])) ∧
    (decodeFilterBuffer ([imagesFilter].flatMap filterUnits ++ [0])).map
        (fun q => (q.1, q.2.dropLast)) =
      [imagesFilter].map (fun f => (f.Name, f.Patterns.elems)) :=
  filter_buffer_round_trip [imagesFilter] (by decide) (by decide)

/-! ## C4: the filter pointer -/

theorem optUTF16Ptr_ok (s : String) (h : Char.ofNat 0 ∉ s.data) :
    ∃ p, optUTF16Ptr s = .ok p := by
  unfold optUTF16Ptr StringToUTF16
  by_cases he : s ≠ ""
  · rw [if_pos he]
    simp [h, Except.map]
  · rw [if_neg he]; exact ⟨none, rfl⟩

/-- A nil filter list leaves the `Filter` pointer null. -/
theorem filter_pointer_of_nil (splitDirAndName : String → String × String) (flags size : Nat)
    (opts : ParsedOptions) (args : OPENFILENAME) (hf : opts.filters = none)
    (h : openFileNameArgs splitDirAndName flags size opts = .ok args) :
    args.Filter = none := by
  simp only [openFileNameArgs, hf, bind, Except.bind] at h
  split at h
  · exact absurd h (by simp)
  · simp only [ne_eq, not_true_eq_false, if_false] at h
    split at h
    · exact absurd h (by simp)
    · injection h with h; rw [← h]

/-- A filter list with an element makes the `Filter` pointer point at the first
element of the buffer `windowsFilters` returns. -/
theorem filter_pointer_of_nonempty (splitDirAndName : String → String × String)
    (flags size : Nat) (opts : ParsedOptions) (args : OPENFILENAME)
    (f : FileFilter) (fs : List FileFilter) (hf : opts.filters = some (f :: fs))
    (h : openFileNameArgs splitDirAndName flags size opts = .ok args) :
    windowsFilters opts.filters = some ((f :: fs).flatMap filterUnits ++ [0]) ∧
    args.Filter = some ((f :: fs).flatMap filterUnits ++ [0]) := by
  have hw := windowsFilters_eq (some (f :: fs))
  rw [Slice.elems_some, if_neg (by simp)] at hw
  have ha : addrOfFirst (some ((f :: fs).flatMap filterUnits ++ [0])) =
      .ok ((f :: fs).flatMap filterUnits ++ [0]) := by
    simp only [addrOfFirst, Slice.elems_some]
    split
    · next he => simp at he
    · next x xs he => rw [he]
  refine ⟨by rw [hf, hw], ?_⟩
  simp only [openFileNameArgs, hf, hw, ha, bind, Except.bind, Except.map] at h
  split at h
  · exact absurd h (by simp)
  · simp only [ne_eq, reduceCtorEq, not_false_eq_true, if_true] at h
    split at h
    · exact absurd h (by simp)
    · injection h with h; rw [← h]

/-- C4, the failing input: with a filter list that is non-nil and of length
zero, and a title without NUL, each of `SelectFile`, `SelectFileMutiple` and
`SelectFileSave` panics on `&windowsFilters(opts.filters)[0]`, the index of an
empty slice, before any native call is made. -/
theorem empty_filter_list_panics (join : String → String → String)
    (splitDirAndName : String → String × String) (sys : Native)
    (title filename : String) (overwrite : Bool) (ht : Char.ofNat 0 ∉ title.data) :
    windowsFilters (some []) = none ∧
    (SelectFile splitDirAndName sys ⟨title, filename, overwrite, some []⟩).outcome =
      .panicked "runtime error: index out of range [0] with length 0" ∧
    (SelectFile splitDirAndName sys ⟨title, filename, overwrite, some []⟩).trace = [] ∧
    (SelectFileMutiple join splitDirAndName sys ⟨title, filename, overwrite, some []⟩).outcome =
      .panicked "runtime error: index out of range [0] with length 0" ∧
    (SelectFileMutiple join splitDirAndName sys ⟨title, filename, overwrite, some []⟩).trace =
      [] ∧
    (SelectFileSave splitDirAndName sys ⟨title, filename, overwrite, some []⟩).outcome =
      .panicked "runtime error: index out of range [0] with length 0" ∧
    (SelectFileSave splitDirAndName sys ⟨title, filename, overwrite, some []⟩).trace = [] := by
  obtain ⟨p, hp⟩ := optUTF16Ptr_ok title ht
  have hargs : ∀ flags size, openFileNameArgs splitDirAndName flags size
      ⟨title, filename, overwrite, some []⟩ =
        .error "runtime error: index out of range [0] with length 0" := by
    intro flags size
    simp only [openFileNameArgs, hp, bind, Except.bind]
    rfl
  refine ⟨rfl, ?_, ?_, ?_, ?_, ?_, ?_⟩ <;>
    simp only [SelectFile, SelectFileMutiple, SelectFileSave, hargs, panics]

/-- The three functions panic for the title `Open` and an empty non-nil list. -/
theorem empty_filter_list_panics_witness :
    (SelectFile (fun s => ("", s))
        ⟨1, 1, [], 0, 0, 0, 0, 0, 0, false, 0, 0, 0, 0, [], 0, []⟩
        ⟨"Open", "", false, some []⟩).outcome =
      .panicked "runtime error: index out of range [0] with length 0" :=
  (empty_filter_list_panics (fun d f => d ++ "\\" ++ f) (fun s => ("", s))
    ⟨1, 1, [], 0, 0, 0, 0, 0, 0, false, 0, 0, 0, 0, [], 0, []⟩ "Open" "" false
    (by decide)).2.1


end Windows

/-! ## C5: the option model -/

/-- Applying options to a record from the left. -/
theorem foldl_options_get (field : Field) :
    ∀ (calls : List OptionCtor) (o : options),
      ((calls.map OptionCtor.build).foldl (fun res opt => opt res) o).get field =
        (lastWrite field calls).getD (o.get field) := by
  intro calls
  induction calls with
  | nil => intro o; rfl
  | cons c rest ih =>
    intro o
    rw [List.map_cons, List.foldl_cons, ih, lastWrite]
    cases lastWrite field rest with
    | some v => rfl
    | none =>
      cases c <;> cases field <;> rfl

/-- For every sequence of `Title`, `Icon` and `Context` options, each field of
the record `applyOptions` returns holds the value of the last option in the
sequence that sets it, and the zero value when none does. -/
theorem applyOptions_last_write_wins (calls : List OptionCtor) (field : Field) :
    (applyOptions (calls.map OptionCtor.build)).get field =
      (lastWrite field calls).getD (options.zero.get field) :=
  foldl_options_get field calls options.zero

/-- C5: one option applied to nothing else puts its value into its field of the
zero record, and `applyOptions [A, B]` is `B` applied to the record `A` made.
For every two options `A` and `B` built by `Title`, `Icon` or `Context`: if
they set the same field, `applyOptions [A, B]` has for that field the value
`applyOptions [B]` has, which is the value `B` was given (the later option
wins), so that swapping two options with different values changes the record;
if they set different fields, `applyOptions [A, B]` equals
`applyOptions [B, A]`, and holds the value of `A` in the field of `A` and the
value of `B` in the field of `B`. -/
theorem applyOptions_order (A B : OptionCtor) :
    (∀ t : String, applyOptions [Title t] = { options.zero with title := t }) ∧
    (∀ i : DialogIcon, applyOptions [Icon i] = { options.zero with icon := i }) ∧
    (∀ c : Interface, applyOptions [Context c] = { options.zero with ctx := c }) ∧
    applyOptions [A.build, B.build] = B.build (A.build options.zero) ∧
    (A.field = B.field →
      (applyOptions [A.build, B.build]).get B.field = (applyOptions [B.build]).get B.field ∧
      (applyOptions [A.build, B.build]).get B.field = B.value ∧
      applyOptions [A.build, B.build] = applyOptions [B.build] ∧
      (A.value ≠ B.value →
        applyOptions [A.build, B.build] ≠ applyOptions [B.build, A.build])) ∧
    (A.field ≠ B.field →
      applyOptions [A.build, B.build] = applyOptions [B.build, A.build] ∧
      (applyOptions [A.build, B.build]).get A.field = A.value ∧
      (applyOptions [A.build, B.build]).get B.field = B.value) := by
  refine ⟨fun _ => rfl, fun _ => rfl, fun _ => rfl, rfl, ?_, ?_⟩
  · intro h
    refine ⟨?_, ?_, ?_, ?_⟩
    · cases A <;> cases B <;> rfl
    · cases A <;> cases B <;> rfl
    · cases A <;> cases B <;> first | rfl | exact Field.noConfusion h
    · intro hv heq
      cases A <;> cases B <;>
        first
        | exact Field.noConfusion h
        | exact hv (congrArg FieldValue.str (congrArg options.title heq).symm)
        | exact hv (congrArg FieldValue.icon (congrArg options.icon heq).symm)
        | exact hv (congrArg FieldValue.iface (congrArg options.ctx heq).symm)
  · intro h
    refine ⟨?_, ?_, ?_⟩ <;>
      cases A <;> cases B <;> first | rfl | exact absurd rfl h

/-- Two titles: the later one is in the record and the order matters; a title
and an icon: both are in the record whatever the order. -/
theorem applyOptions_order_witness :
    (applyOptions [Title "a", Title "b"]).title = "b" ∧
    (applyOptions [Title "b", Title "a"]).title = "a" ∧
    applyOptions [Title "a", Title "b"] ≠ applyOptions [Title "b", Title "a"] ∧
    applyOptions [Title "a", Icon 2] = applyOptions [Icon 2, Title "a"] ∧
    (applyOptions [Title "a", Icon 2]).title = "a" ∧
    (applyOptions [Title "a", Icon 2]).icon = 2 :=
  ⟨congrArg options.title
      ((applyOptions_order (.Title "a") (.Title "b")).2.2.2.2.1 rfl).2.2.1,
   congrArg options.title
      ((applyOptions_order (.Title "b") (.Title "a")).2.2.2.2.1 rfl).2.2.1,
   ((applyOptions_order (.Title "a") (.Title "b")).2.2.2.2.1 rfl).2.2.2 (by decide),
   ((applyOptions_order (.Title "a") (.Icon 2)).2.2.2.2.2 (by decide)).1,
   congrArg options.title ((applyOptions_order (.Title "a") (.Icon 2)).2.2.2.1),
   congrArg options.icon ((applyOptions_order (.Title "a") (.Icon 2)).2.2.2.1)⟩

namespace Windows

/-! ## C6, C7: what `SelectFileMutiple` returns -/

theorem scan_keeps_non_nil (res : List Nat) :
    ∀ (rest : List Nat) (j i : Nat) (nul : Bool) (split : Slice String),
      split ≠ none → scan res rest j i nul split ≠ none := by
  intro rest
  induction rest with
  | nil => intro j i nul split h; simpa [scan] using h
  | cons p rest ih =>
    intro j i nul split h
    rw [scan]
    split
    · split
      · exact h
      · apply ih
        split
        · simp [Slice.append]
        · exact h
    · exact ih _ _ _ _ h

theorem scan_no_nul (res : List Nat) :
    ∀ (rest : List Nat) (j i : Nat) (nul : Bool) (split : Slice String),
      0 ∉ rest → scan res rest j i nul split = split := by
  intro rest
  induction rest with
  | nil => intro j i nul split _; simp [scan]
  | cons p rest ih =>
    intro j i nul split h
    have hp : p ≠ 0 := fun e => h (by simp [e])
    rw [scan, if_neg hp]
    exact ih _ _ _ _ (fun e => h (by simp [e]))

theorem scan_finds_nul (res : List Nat) :
    ∀ (rest : List Nat) (j i : Nat) (split : Slice String),
      i < j → 0 ∈ rest → scan res rest j i false split ≠ none := by
  intro rest
  induction rest with
  | nil => intro j i split _ h; simp at h
  | cons p rest ih =>
    intro j i split hij h
    rw [scan]
    by_cases hp : p = 0
    · rw [if_pos hp]
      simp only [Bool.false_eq_true, if_false, if_pos hij]
      exact scan_keeps_non_nil res rest _ _ _ _ (by simp [Slice.append])
    · rw [if_neg hp]
      have h' : 0 ∈ rest := by
        rcases List.mem_cons.1 h with e | e
        · exact absurd e.symm hp
        · exact e
      exact ih (j + 1) i split (by omega) h'

/-- The scan finds a run exactly when the buffer holds a path. -/
theorem scan_non_nil_iff (res : List Nat) :
    scan res res 0 0 false none ≠ none ↔ holdsPath res = true := by
  cases res with
  | nil => simp [scan, holdsPath]
  | cons u rest =>
    by_cases hu : u = 0
    · subst hu
      cases rest with
      | nil => simp [scan, holdsPath, startsRun]
      | cons v rest' =>
        by_cases hv : v = 0
        · subst hv
          simp [scan, holdsPath, startsRun]
        · by_cases hm : 0 ∈ rest'
          · have := scan_finds_nul (0 :: v :: rest') rest' 2 1 none (by omega) hm
            simpa [scan, holdsPath, startsRun, hv, hm] using this
          · have := scan_no_nul (0 :: v :: rest') rest' 2 1 false none hm
            simp [scan, holdsPath, startsRun, hv, hm, this]
    · by_cases hm : 0 ∈ rest
      · have := scan_finds_nul (u :: rest) rest 1 0 none (by omega) hm
        simpa [scan, holdsPath, hu, hm] using this
      · have := scan_no_nul (u :: rest) rest 1 0 false none hm
        simp [scan, holdsPath, hu, hm, this]

theorem decodeSelection_non_nil_iff (join : String → String → String) (res : List Nat) :
    decodeSelection join res ≠ none ↔ holdsPath res = true := by
  rw [← scan_non_nil_iff]
  simp only [decodeSelection]
  split
  · next h =>
    constructor
    · intro _ hs
      rw [hs] at h
      simp [Slice.elems] at h
    · intro _; simp
  · exact Iff.rfl

end Windows

/-- C6, as the claim states it, fails on both adapters: on Windows
`GetOpenFileName` reports success and leaves the result buffer of 294912 units
all zero, on macOS the script exits with status 0 and an empty standard output;
both calls return a nil sequence and a nil error. -/
theorem confirmed_selection_can_be_nil :
    (Windows.sysConfirmed (List.replicate (32768 + 1024 * 256) 0)).getOpenFileName ≠ 0 ∧
    (Windows.SelectFileMutiple (fun d f => d ++ "\\" ++ f) (fun s => ("", s))
        (Windows.sysConfirmed (List.replicate (32768 + 1024 * 256) 0))
        ⟨"", "", false, none⟩).outcome = .returned none none ∧
    Darwin.SelectFileMutiple (fun _ _ => ([], none)) ⟨"", "", false, none⟩ = (none, none) := by
  refine ⟨by decide, ?_, by decide⟩
  rfl

/-- C6, amended: whenever the native picker reports confirmation the error is
nil, and the returned sequence is non-nil exactly when the picker left a path:
on Windows when the result buffer, after at most one leading NUL, begins with a
non-zero unit that a NUL follows; on macOS when the standard output has at
least two bytes. Otherwise the sequence is nil, with a nil error. -/
theorem confirmed_selection_non_nil_iff :
    (∀ (join : String → String → String) (splitDirAndName : String → String × String)
      (sys : Windows.Native) (opts : ParsedOptions) (args : Windows.OPENFILENAME),
      Windows.openFileNameArgs splitDirAndName 0x80208 (32768 + 1024 * 256) opts = .ok args →
      sys.getOpenFileName ≠ 0 →
      ∃ paths, (Windows.SelectFileMutiple join splitDirAndName sys opts).outcome =
          .returned paths none ∧
        (paths ≠ none ↔ Windows.holdsPath sys.fileBuffer = true)) ∧
    (∀ (osaRun : String → Darwin.File → List Nat × Option GoError) (opts : ParsedOptions)
      (out : List Nat), osaRun "file" (Darwin.request opts) = (out, none) →
      ∃ paths, Darwin.SelectFileMutiple osaRun opts = (paths, none) ∧
        (paths ≠ none ↔ 2 ≤ out.length)) := by
  constructor
  · intro join sdn sys opts args hargs hcall
    refine ⟨Windows.decodeSelection join sys.fileBuffer, ?_,
      Windows.decodeSelection_non_nil_iff join sys.fileBuffer⟩
    simp only [Windows.SelectFileMutiple, hargs, if_neg hcall, Windows.call, Windows.defer,
      Windows.ret]
  · intro osaRun opts out hrun
    have hrun' := hrun
    simp only [Darwin.request] at hrun'
    by_cases h : 2 ≤ out.length
    · refine ⟨some (stringsSplit 0 (out.take (out.length - 1))), ?_, by simp [h]⟩
      have h1 : out.length > 0 := by omega
      have h2 : ¬ (out.length - 1 = 0) := by omega
      have h3 : ¬ (out.length = 0) := by omega
      simp [Darwin.SelectFileMutiple, hrun', h1, h2, h3]
    · refine ⟨none, ?_, by simp [h]⟩
      by_cases h1 : out.length > 0
      · have h2 : out.length - 1 = 0 := by omega
        have h3 : ¬ (out.length = 0) := by omega
        simp [Darwin.SelectFileMutiple, hrun', h1, h2, h3]
      · have h3 : out.length = 0 := by omega
        simp [Darwin.SelectFileMutiple, hrun', h3]

/-- A confirmed Windows selection of one path and a confirmed macOS selection of
two paths are non-nil. -/
theorem confirmed_selection_non_nil_iff_witness :
    (∃ paths, (Windows.SelectFileMutiple (fun d f => d ++ "\\" ++ f) (fun s => ("", s))
        (Windows.sysConfirmed [97, 0, 0, 0]) ⟨"", "", false, none⟩).outcome =
          .returned paths none ∧
        (paths ≠ none ↔ Windows.holdsPath [97, 0, 0, 0] = true)) ∧
    (∃ paths, Darwin.SelectFileMutiple (fun _ _ => ([97, 0, 98, 10], none))
        ⟨"", "", false, none⟩ = (paths, none) ∧
        (paths ≠ none ↔ 2 ≤ [97, 0, 98, 10].length)) :=
  ⟨confirmed_selection_non_nil_iff.1 (fun d f => d ++ "\\" ++ f) (fun s => ("", s))
      (Windows.sysConfirmed [97, 0, 0, 0]) ⟨"", "", false, none⟩ _ rfl (by decide),
   confirmed_selection_non_nil_iff.2 (fun _ _ => ([97, 0, 98, 10], none))
      ⟨"", "", false, none⟩ [97, 0, 98, 10] rfl⟩

/-- C7: on cancellation `SelectFileMutiple` returns a nil sequence and a nil
error on both adapters: on Windows when `GetOpenFileName` returns 0 and
`CommDlgExtendedError` returns 0, on macOS when the script exits with status 1.
When `GetOpenFileName` returns 0 with a non-zero extended error code `n` it
returns a nil sequence and the error `Common Dialog error: ` followed by `n` in
hexadecimal; when the macOS run fails in any other way it returns a nil
sequence and that error. -/
theorem cancelled_selection_is_nil :
    (∀ (join : String → String → String) (splitDirAndName : String → String × String)
      (sys : Windows.Native) (opts : ParsedOptions) (args : Windows.OPENFILENAME),
      Windows.openFileNameArgs splitDirAndName 0x80208 (32768 + 1024 * 256) opts = .ok args →
      sys.getOpenFileName = 0 →
      (sys.commDlgExtendedError = 0 →
        (Windows.SelectFileMutiple join splitDirAndName sys opts).outcome =
          .returned none none) ∧
      (sys.commDlgExtendedError ≠ 0 →
        (Windows.SelectFileMutiple join splitDirAndName sys opts).outcome =
          .returned none (some (.errorf ("Common Dialog error: " ++
            String.mk (Nat.toDigits 16 sys.commDlgExtendedError)))))) ∧
    (∀ (osaRun : String → Darwin.File → List Nat × Option GoError) (opts : ParsedOptions)
      (out : List Nat), osaRun "file" (Darwin.request opts) = (out, some (.exitError 1)) →
      Darwin.SelectFileMutiple osaRun opts = (none, none)) ∧
    (∀ (osaRun : String → Darwin.File → List Nat × Option GoError) (opts : ParsedOptions)
      (out : List Nat) (e : GoError), osaRun "file" (Darwin.request opts) = (out, some e) →
      e ≠ .exitError 1 → Darwin.SelectFileMutiple osaRun opts = (none, some e)) := by
  refine ⟨?_, ?_, ?_⟩
  · intro join sdn sys opts args hargs hcall
    constructor
    · intro h0
      simp only [Windows.SelectFileMutiple, hargs, if_pos hcall, Windows.call, Windows.defer,
        Windows.ret, Windows.commDlgError, if_pos h0]
    · intro h0
      simp only [Windows.SelectFileMutiple, hargs, if_pos hcall, Windows.call, Windows.defer,
        Windows.ret, Windows.commDlgError, if_neg h0, Windows.commDlgErrorf]
  · intro osaRun opts out hrun
    simp only [Darwin.request] at hrun
    simp [Darwin.SelectFileMutiple, hrun]
  · intro osaRun opts out e hrun he
    simp only [Darwin.request] at hrun
    cases e with
    | exitError c =>
      have hc : c ≠ 1 := fun h => he (by rw [h])
      simp [Darwin.SelectFileMutiple, hrun, hc]
    | errno c => simp [Darwin.SelectFileMutiple, hrun]
    | errorf m => simp [Darwin.SelectFileMutiple, hrun]
    | other m => simp [Darwin.SelectFileMutiple, hrun]

/-- Cancellation on Windows, the extended error 0xFFFF on Windows, and exit
status 1 and 2 on macOS. -/
theorem cancelled_selection_is_nil_witness :
    (Windows.SelectFileMutiple (fun d f => d ++ "\\" ++ f) (fun s => ("", s))
        { Windows.sysConfirmed [] with getOpenFileName := 0 }
        ⟨"", "", false, none⟩).outcome = .returned none none ∧
    (Windows.SelectFileMutiple (fun d f => d ++ "\\" ++ f) (fun s => ("", s))
        { Windows.sysConfirmed [] with getOpenFileName := 0, commDlgExtendedError := 0xFFFF }
        ⟨"", "", false, none⟩).outcome =
      .returned none (some (.errorf "Common Dialog error: ffff")) ∧
    Darwin.SelectFileMutiple (fun _ _ => ([], some (.exitError 1))) ⟨"", "", false, none⟩ =
      (none, none) ∧
    Darwin.SelectFileMutiple (fun _ _ => ([], some (.exitError 2))) ⟨"", "", false, none⟩ =
      (none, some (.exitError 2)) :=
  ⟨((cancelled_selection_is_nil.1 (fun d f => d ++ "\\" ++ f) (fun s => ("", s))
      { Windows.sysConfirmed [] with getOpenFileName := 0 }
      ⟨"", "", false, none⟩ _ rfl rfl).1 rfl),
   ((cancelled_selection_is_nil.1 (fun d f => d ++ "\\" ++ f) (fun s => ("", s))
      { Windows.sysConfirmed [] with getOpenFileName := 0, commDlgExtendedError := 0xFFFF }
      ⟨"", "", false, none⟩ _ rfl rfl).2 (by decide)),
   cancelled_selection_is_nil.2.1 (fun _ _ => ([], some (.exitError 1)))
      ⟨"", "", false, none⟩ [] rfl,
   cancelled_selection_is_nil.2.2 (fun _ _ => ([], some (.exitError 2)))
      ⟨"", "", false, none⟩ [] (.exitError 2) rfl (by decide)⟩

namespace Windows

/-! ## C8, C9, C10: `SelectDirectory` -/

theorem int32Neg_cancelled : int32Neg 0x800704c7 = true := by decide

/-- The part of `SelectDirectory` from `Show` on: its outcome by the status of
`Show`, and whether it goes on to `GetResult`. -/
theorem showAndResolve_spec (sys : Native) :
    (sys.dialogShow = 0x800704c7 → (showAndResolve sys).outcome = .returned "" none) ∧
    (sys.dialogShow ≠ 0x800704c7 → int32Neg sys.dialogShow = true →
      (showAndResolve sys).outcome = .returned "" (some (.errno sys.dialogShow))) ∧
    (Call.DialogGetResult ∈ (showAndResolve sys).trace ↔ int32Neg sys.dialogShow = false) := by
  refine ⟨?_, ?_, ?_⟩
  · intro h
    simp [showAndResolve, call, ret, h]
  · intro h hn
    simp [showAndResolve, call, ret, h, hn]
  · by_cases h : sys.dialogShow = 0x800704c7
    · have hn : int32Neg sys.dialogShow = true := by rw [h]; exact int32Neg_cancelled
      simp [showAndResolve, call, ret, h, int32Neg_cancelled]
    · by_cases hn : int32Neg sys.dialogShow = true
      · simp [showAndResolve, call, ret, h, hn]
      · simp [showAndResolve, call, hn, h]

theorem browseForFolder_no_dialog_call (sys : Native) (title : String) (c : Call)
    (hc : c = .DialogShow ∨ c = .DialogGetResult ∨ c = .CoUninit)
    : c ∉ (browseForFolder sys title).trace := by
  unfold browseForFolder
  rcases hc with rfl | rfl | rfl <;>
  · split
    · simp [panics]
    · split <;> simp [call, defer, ret]


theorem configureAndShow_show (sys : Native) (opts : ParsedOptions)
    (h : Call.DialogShow ∈ (configureAndShow sys opts).trace) :
    (configureAndShow sys opts).outcome = (showAndResolve sys).outcome ∧
    (Call.DialogGetResult ∈ (configureAndShow sys opts).trace ↔
      Call.DialogGetResult ∈ (showAndResolve sys).trace) := by
  unfold configureAndShow at h ⊢
  rcases ht : optUTF16Ptr opts.title with msg | title
  · simp [ht, panics] at h
  · rcases hf : optUTF16Ptr opts.filename with msg | name
    · cases title <;> simp [ht, hf, panics, call] at h
    · cases title <;> cases name <;> by_cases hp : sys.parsedItem = true <;>
        simp [call, hp]

theorem createAndShow_show (sys : Native) (opts : ParsedOptions)
    (h : Call.DialogShow ∈ (createAndShow sys opts).trace) :
    (createAndShow sys opts).outcome = (showAndResolve sys).outcome ∧
    (Call.DialogGetResult ∈ (createAndShow sys opts).trace ↔
      Call.DialogGetResult ∈ (showAndResolve sys).trace) := by
  unfold createAndShow at h ⊢
  by_cases h1 : int32Neg sys.coCreateInstance = true
  · simp [call, h1, browseForFolder_no_dialog_call] at h
  · by_cases h2 : int32Neg sys.getOptions = true
    · simp [call, defer, ret, h1, h2] at h
    · by_cases h3 : int32Neg sys.setOptions = true
      · simp [call, defer, ret, h1, h2, h3] at h
      · simp only [call, defer, h1, h2, h3, Bool.false_eq_true, if_false, List.mem_cons,
          List.mem_append, List.mem_singleton, List.not_mem_nil, reduceCtorEq, false_or,
          or_false] at h ⊢
        exact configureAndShow_show sys opts h

theorem selectDirectory_show (sys : Native) (opts : ParsedOptions)
    (h : Call.DialogShow ∈ (SelectDirectory sys opts).trace) :
    (SelectDirectory sys opts).outcome = (showAndResolve sys).outcome ∧
    (Call.DialogGetResult ∈ (SelectDirectory sys opts).trace ↔
      Call.DialogGetResult ∈ (showAndResolve sys).trace) := by
  unfold SelectDirectory at h ⊢
  by_cases h0 : sys.coInitializeEx = 0x80010106
  · simp only [call, defer, h0, ne_eq, not_true_eq_false, if_false, List.mem_cons,
      List.mem_append, List.mem_singleton, List.not_mem_nil, reduceCtorEq, false_or,
          or_false] at h ⊢
    exact createAndShow_show sys opts h
  · by_cases h1 : int32Neg sys.coInitializeEx = true
    · simp [call, defer, ret, h0, h1] at h
    · simp only [call, defer, h0, h1, ne_eq, not_false_eq_true, if_true, Bool.false_eq_true,
        if_false, List.mem_cons, List.mem_append, List.mem_singleton, List.not_mem_nil,
        reduceCtorEq, false_or,
        or_false] at h ⊢
      exact createAndShow_show sys opts h


/-- C8: whenever `SelectDirectory` makes the modal `Show` call, the status `hr`
it returns decides the outcome: the user-cancelled code 0x800704c7 gives
`("", nil)`; every other status that is negative as a signed 32-bit value gives
`("", err)` with `err` the `syscall.Errno` of that raw status; and the result
item is fetched (`GetResult` is called) exactly when the status is not
negative. -/
theorem show_status_decides_outcome (sys : Native) (opts : ParsedOptions)
    (h : Call.DialogShow ∈ (SelectDirectory sys opts).trace) :
    (sys.dialogShow = 0x800704c7 →
      (SelectDirectory sys opts).outcome = .returned "" none) ∧
    (sys.dialogShow ≠ 0x800704c7 → int32Neg sys.dialogShow = true →
      (SelectDirectory sys opts).outcome = .returned "" (some (.errno sys.dialogShow))) ∧
    (Call.DialogGetResult ∈ (SelectDirectory sys opts).trace ↔
      int32Neg sys.dialogShow = false) := by
  obtain ⟨ho, hg⟩ := selectDirectory_show sys opts h
  obtain ⟨h1, h2, h3⟩ := showAndResolve_spec sys
  rw [ho, hg]
  exact ⟨h1, h2, h3⟩

/-- The statuses cancelled, `E_FAIL` and `S_OK` of the `Show` call. -/
theorem show_status_decides_outcome_witness :
    (SelectDirectory (sysDirectory 0 0 0x800704c7 0) ⟨"Pick", "", false, none⟩).outcome =
      .returned "" none ∧
    (SelectDirectory (sysDirectory 0 0 0x80004005 0) ⟨"Pick", "", false, none⟩).outcome =
      .returned "" (some (.errno 0x80004005)) ∧
    (Call.DialogGetResult ∈
        (SelectDirectory (sysDirectory 0 0 0 0) ⟨"Pick", "", false, none⟩).trace ↔
      int32Neg (sysDirectory 0 0 0 0).dialogShow = false) :=
  ⟨(show_status_decides_outcome (sysDirectory 0 0 0x800704c7 0)
      ⟨"Pick", "", false, none⟩ (by decide)).1 rfl,
   (show_status_decides_outcome (sysDirectory 0 0 0x80004005 0)
      ⟨"Pick", "", false, none⟩ (by decide)).2.1 (by decide) (by decide),
   (show_status_decides_outcome (sysDirectory 0 0 0 0)
      ⟨"Pick", "", false, none⟩ (by decide)).2.2⟩

theorem browseForFolder_spec (sys : Native) (title : String) :
    (∀ v err, (browseForFolder sys title).outcome = .returned v err → err = none) ∧
    (∀ args, Call.SHBrowseForFolder args ∈ (browseForFolder sys title).trace →
      args = { Flags := 0x1, Title := if title = "" then none
                 else some (utf16.Encode (runes title) ++ [0]) } ∧
      (sys.shBrowseForFolder = 0 → (browseForFolder sys title).outcome = .returned "" none) ∧
      (sys.shBrowseForFolder ≠ 0 → (browseForFolder sys title).outcome =
        .returned (UTF16ToString sys.pathBuffer) none)) ∧
    (Char.ofNat 0 ∉ title.data → ∃ args, Call.SHBrowseForFolder args ∈
      (browseForFolder sys title).trace) := by
  unfold browseForFolder
  by_cases hn : Char.ofNat 0 ∈ title.data
  · by_cases he : title = ""
    · subst he; simp at hn
    · have : optUTF16Ptr title =
          .error "syscall: string with NUL passed to StringToUTF16" := by
        simp [optUTF16Ptr, StringToUTF16, he, hn, Except.map]
      simp [this, panics, hn]
  · by_cases he : title = ""
    · subst he
      have : optUTF16Ptr "" = .ok none := rfl
      by_cases hp : sys.shBrowseForFolder = 0 <;>
        simp [this, call, defer, ret, hp]
    · have : optUTF16Ptr title = .ok (some (utf16.Encode (runes title) ++ [0])) := by
        simp [optUTF16Ptr, StringToUTF16, he, hn, Except.map]
      by_cases hp : sys.shBrowseForFolder = 0 <;>
        simp [this, call, defer, ret, hp, he]

theorem selectDirectory_fallback (sys : Native) (opts : ParsedOptions)
    (h : Call.CoCreateInstance 0x17 ∈ (SelectDirectory sys opts).trace)
    (hneg : int32Neg sys.coCreateInstance = true) :
    (SelectDirectory sys opts).outcome = (browseForFolder sys opts.title).outcome ∧
    ∃ post, (SelectDirectory sys opts).trace =
      [.LockOSThread, .CoInitializeEx 0x6, .CoCreateInstance 0x17] ++
        (browseForFolder sys opts.title).trace ++ post ∧
      (post = [.UnlockOSThread] ∨ post = [.CoUninit, .UnlockOSThread]) := by
  unfold SelectDirectory at h ⊢
  by_cases h0 : sys.coInitializeEx = 0x80010106
  · simp [call, defer, h0, createAndShow, hneg]
  · by_cases h1 : int32Neg sys.coInitializeEx = true
    · simp [call, defer, ret, h0, h1] at h
    · simp [call, defer, h0, h1, createAndShow, hneg]

/-- C9: whenever `SelectDirectory` reaches the creation of the dialog object
and `CoCreateInstance` returns a negative status, it calls `browseForFolder`
with the configured title and ends as that call ends, never with an error (so
not with the status of the failed creation); and whenever the legacy browser
is shown, it is shown with that title, a null item gives `("", nil)` and a
non-null item gives the path decoded from the path buffer with a nil error. A
title without NUL always gets the browser shown. -/
theorem creation_failure_falls_back (sys : Native) (opts : ParsedOptions)
    (h : Call.CoCreateInstance 0x17 ∈ (SelectDirectory sys opts).trace)
    (hneg : int32Neg sys.coCreateInstance = true) :
    (SelectDirectory sys opts).outcome = (browseForFolder sys opts.title).outcome ∧
    (∃ post, (SelectDirectory sys opts).trace =
      [.LockOSThread, .CoInitializeEx 0x6, .CoCreateInstance 0x17] ++
        (browseForFolder sys opts.title).trace ++ post ∧
      (post = [.UnlockOSThread] ∨ post = [.CoUninit, .UnlockOSThread])) ∧
    (∀ v err, (SelectDirectory sys opts).outcome = .returned v err → err = none) ∧
    (∀ args, Call.SHBrowseForFolder args ∈ (browseForFolder sys opts.title).trace →
      args = { Flags := 0x1, Title := if opts.title = "" then none
                 else some (utf16.Encode (runes opts.title) ++ [0]) } ∧
      (sys.shBrowseForFolder = 0 → (SelectDirectory sys opts).outcome = .returned "" none) ∧
      (sys.shBrowseForFolder ≠ 0 → (SelectDirectory sys opts).outcome =
        .returned (UTF16ToString sys.pathBuffer) none)) ∧
    (Char.ofNat 0 ∉ opts.title.data → ∃ args, Call.SHBrowseForFolder args ∈
      (browseForFolder sys opts.title).trace) := by
  obtain ⟨ho, ht⟩ := selectDirectory_fallback sys opts h hneg
  obtain ⟨b1, b2, b3⟩ := browseForFolder_spec sys opts.title
  rw [ho]
  exact ⟨rfl, ht, b1, b2, b3⟩

/-- Creation fails with `E_NOINTERFACE`; the legacy browser, titled `Pick`,
answers with an item whose path is `C:\old`. -/
theorem creation_failure_falls_back_witness :
    (SelectDirectory (sysDirectory 0 0x80004002 0 7) ⟨"Pick", "", false, none⟩).outcome =
      (browseForFolder (sysDirectory 0 0x80004002 0 7) "Pick").outcome ∧
    (SelectDirectory (sysDirectory 0 0x80004002 0 7) ⟨"Pick", "", false, none⟩).outcome =
      .returned "C:\\old" none :=
  ⟨(creation_failure_falls_back (sysDirectory 0 0x80004002 0 7)
      ⟨"Pick", "", false, none⟩ (by decide) (by decide)).1,
   by
    have h := (creation_failure_falls_back (sysDirectory 0 0x80004002 0 7)
      ⟨"Pick", "", false, none⟩ (by decide) (by decide)).2.2.2.1
      { Flags := 0x1, Title := some [80, 105, 99, 107, 0] } (by decide)
    exact (h.2.2 (by decide)).trans (by decide)⟩


theorem showAndResolve_no_teardown (sys : Native) :
    Call.CoUninit ∉ (showAndResolve sys).trace := by
  unfold showAndResolve
  by_cases h1 : sys.dialogShow = 0x800704c7
  · simp [call, ret, h1]
  · by_cases h2 : int32Neg sys.dialogShow = true
    · simp [call, ret, h1, h2]
    · by_cases h3 : int32Neg sys.getResult = true
      · simp [call, ret, h1, h2, h3]
      · by_cases h4 : int32Neg sys.getDisplayName = true <;>
          simp [call, defer, ret, h1, h2, h3, h4]

theorem configureAndShow_no_teardown (sys : Native) (opts : ParsedOptions) :
    Call.CoUninit ∉ (configureAndShow sys opts).trace := by
  have hs := showAndResolve_no_teardown sys
  unfold configureAndShow
  rcases optUTF16Ptr opts.title with msg | title
  · simp [panics]
  · rcases optUTF16Ptr opts.filename with msg | name
    · cases title <;> simp [panics, call]
    · cases title <;> cases name <;> by_cases hp : sys.parsedItem = true <;>
        simp [call, hp, hs]

theorem createAndShow_trace (sys : Native) (opts : ParsedOptions) :
    Call.CoUninit ∉ (createAndShow sys opts).trace ∧
    Call.CoCreateInstance 0x17 ∈ (createAndShow sys opts).trace := by
  have hc := configureAndShow_no_teardown sys opts
  have hb := browseForFolder_no_dialog_call sys opts.title .CoUninit (by simp)
  unfold createAndShow
  by_cases h1 : int32Neg sys.coCreateInstance = true
  · simp [call, h1, hb]
  · by_cases h2 : int32Neg sys.getOptions = true
    · simp [call, defer, ret, h1, h2]
    · by_cases h3 : int32Neg sys.setOptions = true <;>
        simp [call, defer, ret, h1, h2, h3, hc]

/-- C10, as the claim states it, fails when the initializer itself fails: with
`CoInitializeEx` returning `E_FAIL`, which is not 0x80010106, `SelectDirectory`
returns that status as its error and never calls `CoUninitialize`. -/
theorem failed_initializer_skips_teardown :
    (sysDirectory 0x80004005 0 0 0).coInitializeEx ≠ 0x80010106 ∧
    (SelectDirectory (sysDirectory 0x80004005 0 0 0) ⟨"Pick", "", false, none⟩).outcome =
      .returned "" (some (.errno 0x80004005)) ∧
    teardowns (SelectDirectory (sysDirectory 0x80004005 0 0 0)
      ⟨"Pick", "", false, none⟩).trace = 0 := by
  decide

/-- C10, amended: over the native calls `SelectDirectory` makes: if the
initializer reports 0x80010106, `CoUninitialize` is never called and the
function goes on to create the dialog; if the initializer returns any other
status that is negative as a signed 32-bit value, the function returns that
status as its error at once, with the thread unpinned and without calling
`CoUninitialize`; for every other initializer result the function goes on to
create the dialog and calls `CoUninitialize` exactly once, as its last call
before unpinning the thread, whatever later native call fails, is cancelled or
succeeds and also when a later step panics. -/
theorem teardown_ownership (sys : Native) (opts : ParsedOptions) :
    (sys.coInitializeEx = 0x80010106 →
      teardowns (SelectDirectory sys opts).trace = 0 ∧
      Call.CoCreateInstance 0x17 ∈ (SelectDirectory sys opts).trace) ∧
    (sys.coInitializeEx ≠ 0x80010106 → int32Neg sys.coInitializeEx = true →
      (SelectDirectory sys opts).outcome = .returned "" (some (.errno sys.coInitializeEx)) ∧
      (SelectDirectory sys opts).trace =
        [.LockOSThread, .CoInitializeEx 0x6, .UnlockOSThread]) ∧
    (sys.coInitializeEx ≠ 0x80010106 → int32Neg sys.coInitializeEx = false →
      teardowns (SelectDirectory sys opts).trace = 1 ∧
      Call.CoCreateInstance 0x17 ∈ (SelectDirectory sys opts).trace ∧
      ∃ pre, (SelectDirectory sys opts).trace =
        pre ++ [.CoUninit, .UnlockOSThread]) := by
  obtain ⟨hno, hcreate⟩ := createAndShow_trace sys opts
  have hcount : List.count Call.CoUninit (createAndShow sys opts).trace = 0 :=
    List.count_eq_zero.2 hno
  refine ⟨?_, ?_, ?_⟩
  · intro h0
    simp [SelectDirectory, teardowns, call, defer, h0, hcount, hcreate]
  · intro h0 h1
    simp [SelectDirectory, call, defer, ret, h0, h1]
  · intro h0 h1
    refine ⟨?_, ?_, ?_⟩
    · simp [SelectDirectory, teardowns, call, defer, h0, h1, hcount]
    · simp [SelectDirectory, call, defer, h0, h1, hcreate]
    · refine ⟨[.LockOSThread, .CoInitializeEx 0x6] ++ (createAndShow sys opts).trace, ?_⟩
      simp [SelectDirectory, call, defer, h0, h1]

/-- The initializer reports a changed mode, fails, and succeeds. -/
theorem teardown_ownership_witness :
    teardowns (SelectDirectory (sysDirectory 0x80010106 0 0 0)
      ⟨"Pick", "", false, none⟩).trace = 0 ∧
    (SelectDirectory (sysDirectory 0x80004005 0 0 0) ⟨"Pick", "", false, none⟩).trace =
      [.LockOSThread, .CoInitializeEx 0x6, .UnlockOSThread] ∧
    teardowns (SelectDirectory (sysDirectory 1 0 0x80004005 0)
      ⟨"Pick", "", false, none⟩).trace = 1 :=
  ⟨((teardown_ownership (sysDirectory 0x80010106 0 0 0) ⟨"Pick", "", false, none⟩).1
      rfl).1,
   ((teardown_ownership (sysDirectory 0x80004005 0 0 0) ⟨"Pick", "", false, none⟩).2.1
      (by decide) (by decide)).2,
   ((teardown_ownership (sysDirectory 1 0 0x80004005 0) ⟨"Pick", "", false, none⟩).2.2
      (by decide) (by decide)).1⟩

end Windows

namespace Cmd

/-! ## C11: the `--file-filter` flag -/

theorem stringsSplitN2_first (sep : Nat) (b : List Nat) :
    ∀ a : List Nat, sep ∉ a → stringsSplitN2 sep (a ++ sep :: b) = [a, b] := by
  intro a
  induction a with
  | nil => intro _; simp [stringsSplitN2]
  | cons c a ih =>
    intro h
    have hc : c ≠ sep := fun e => h (by simp [e])
    have ha : sep ∉ a := fun e => h (by simp [e])
    rw [List.cons_append, stringsSplitN2, if_neg hc, ih ha]

theorem stringsSplit_whole (sep : Nat) :
    ∀ r : List Nat, sep ∉ r → stringsSplit sep r = [r] := by
  intro r
  induction r with
  | nil => intro _; rfl
  | cons c r ih =>
    intro h
    have hc : c ≠ sep := fun e => h (by simp [e])
    have hr : sep ∉ r := fun e => h (by simp [e])
    rw [stringsSplit, if_neg hc, ih hr]

/-- Splitting pieces joined by the separator gives the pieces back, when there
is a piece and no piece holds the separator. -/
theorem stringsSplit_joinWith (sep : Nat) :
    ∀ rs : List (List Nat), rs ≠ [] → (∀ r ∈ rs, sep ∉ r) →
      stringsSplit sep (joinWith sep rs) = rs := by
  intro rs
  induction rs with
  | nil => intro h; exact absurd rfl h
  | cons r rs ih =>
    intro _ h
    cases rs with
    | nil => simpa [joinWith] using stringsSplit_whole sep r (h r (by simp))
    | cons m rest =>
      rw [joinWith, Windows.stringsSplit_run sep _ r (h r (by simp)),
        ih (by simp) (fun q hq => h q (by simp [hq]))]

theorem map_joinWith {α β : Type} (g : α → β) (sep : α) :
    ∀ ls : List (List α), (joinWith sep ls).map g = joinWith (g sep) (ls.map (List.map g)) := by
  intro ls
  induction ls with
  | nil => rfl
  | cons l ls ih =>
    cases ls with
    | nil => simp [joinWith]
    | cons m rest =>
      rw [joinWith, List.map_append, List.map_cons, ih]
      simp [joinWith]

theorem string_map_toNat (l : List Char) : string (l.map Char.toNat) = String.mk l :=
  string_runes (String.mk l)

theorem runes_no_small (u : Nat) (hu : u < 0xd800) (s : String)
    (h : Char.ofNat u ∉ s.data) : u ∉ runes s :=
  fun hm => h (mem_runes_small u hu s hm)

theorem map_string_runes (ps : List String) : (ps.map runes).map string = ps := by
  induction ps with
  | nil => rfl
  | cons p ps ih => simp only [List.map_cons, ih, string_runes]

theorem runes_documentedForm (name : String) (patterns : List String) :
    runes (documentedForm name patterns) =
      (runes name ++ [32]) ++ 124 :: (32 :: joinWith 32 (patterns.map runes)) := by
  have h32 : (Char.ofNat 32).toNat = 32 := by decide
  have h124 : (Char.ofNat 124).toNat = 124 := by decide
  simp only [runes, documentedForm, List.map_append, List.map_cons, List.map_nil,
    map_joinWith, h32, h124, List.map_map]
  simp only [Function.comp_def, List.append_assoc, List.cons_append, List.nil_append]
  rfl

theorem runes_compactForm (name : String) (patterns : List String) :
    runes (compactForm name patterns) =
      runes name ++ 124 :: joinWith 32 (patterns.map runes) := by
  have h32 : (Char.ofNat 32).toNat = 32 := by decide
  have h124 : (Char.ofNat 124).toNat = 124 := by decide
  simp only [runes, compactForm, List.map_append, List.map_cons, List.map_nil,
    map_joinWith, h32, h124, List.map_map]
  simp only [Function.comp_def, List.append_assoc, List.cons_append, List.nil_append]
  rfl


/-- What `Set` makes of a value with a `|` after a part free of `|`: the part
before is the name as it stands, the part after is split at every blank. -/
theorem set_of_bar (f : Slice FileFilter) (s : String) (a b : List Nat)
    (hs : runes s = a ++ 124 :: b) (ha : 124 ∉ a) :
    FileFilters.Set f s =
      (f.append [{ Name := string a, Patterns := some ((stringsSplit 32 b).map string) }],
        none) := by
  simp [FileFilters.Set, hs, stringsSplitN2_first 124 b a ha]

theorem name_blank (name : String) :
    string (runes name ++ [32]) = name ++ " " := by
  have h : runes name ++ [32] = (name.data ++ [Char.ofNat 32]).map Char.toNat := by
    simp [runes]
  rw [h, string_map_toNat]
  rfl

/-- C11, the failing input and every input like it: given the documented form
`NAME | P1 P2 ... Pn`, with no `|` in the name, one or more patterns and no
blank in a pattern, `Set` appends one filter, leaves the filters already
collected unchanged and returns no error, but the filter is not the claimed
one: its name is `NAME` followed by a blank, and its patterns are an empty
pattern followed by `P1, ..., Pn`. -/
theorem set_documented_form_keeps_blanks (f : Slice FileFilter) (name : String)
    (patterns : List String) (hname : Char.ofNat 124 ∉ name.data)
    (hne : patterns ≠ []) (hpat : ∀ p ∈ patterns, Char.ofNat 32 ∉ p.data) :
    FileFilters.Set f (documentedForm name patterns) =
      (some (f.elems ++ [{ Name := name ++ " ", Patterns := some ("" :: patterns) }]), none) ∧
    FileFilters.Set f (documentedForm name patterns) ≠
      (some (f.elems ++ [{ Name := name, Patterns := some patterns }]), none) := by
  have ha : 124 ∉ runes name ++ [32] := by
    intro hm
    rcases List.mem_append.1 hm with h | h
    · exact runes_no_small 124 (by norm_num) name hname h
    · simp at h
  have hsplit : stringsSplit 32 (32 :: joinWith 32 (patterns.map runes)) =
      [] :: patterns.map runes := by
    have h1 := Windows.stringsSplit_run 32 (joinWith 32 (patterns.map runes)) [] (by simp)
    have h2 := stringsSplit_joinWith 32 (patterns.map runes) (by simpa using hne)
      (by
        intro r hr
        simp only [List.mem_map] at hr
        obtain ⟨p, hp, rfl⟩ := hr
        exact runes_no_small 32 (by norm_num) p (hpat p hp))
    rw [List.nil_append] at h1
    rw [h1, h2]
  have hset := set_of_bar f (documentedForm name patterns) _ _
    (runes_documentedForm name patterns) ha
  have hempty : string [] = "" := rfl
  rw [hsplit, List.map_cons, map_string_runes, name_blank, hempty] at hset
  have hval : FileFilters.Set f (documentedForm name patterns) =
      (some (f.elems ++ [{ Name := name ++ " ", Patterns := some ("" :: patterns) }]),
        none) := by
    rw [hset]; rfl
  refine ⟨hval, ?_⟩
  rw [hval]
  intro h
  have h1 := (Prod.mk.inj h).1
  have h2 := List.append_cancel_left (Option.some.inj h1)
  have h3 := congrArg (fun l => l.map FileFilter.Patterns) h2
  simp at h3

/-- The value `Images | *.png *.jpg` gives the name `Images ` with a blank at
its end and three patterns, the first of them empty. -/
theorem set_documented_form_keeps_blanks_witness :
    FileFilters.Set none "Images | *.png *.jpg" =
      (some [{ Name := "Images ", Patterns := some ["", "*.png", "*.jpg"] }], none) ∧
    FileFilters.Set none "Images | *.png *.jpg" ≠
      (some [{ Name := "Images", Patterns := some ["*.png", "*.jpg"] }], none) :=
  set_documented_form_keeps_blanks none "Images" ["*.png", "*.jpg"]
    (by decide) (by decide) (by decide)

/-- Written without blanks around `|`, `NAME|P1 P2 ... Pn` is parsed as the
claim says: one filter named `NAME` with the patterns `P1, ..., Pn`. -/
theorem set_compact_form (f : Slice FileFilter) (name : String)
    (patterns : List String) (hname : Char.ofNat 124 ∉ name.data)
    (hne : patterns ≠ []) (hpat : ∀ p ∈ patterns, Char.ofNat 32 ∉ p.data) :
    FileFilters.Set f (compactForm name patterns) =
      (some (f.elems ++ [{ Name := name, Patterns := some patterns }]), none) := by
  have hsplit := stringsSplit_joinWith 32 (patterns.map runes) (by simpa using hne)
    (by
      intro r hr
      simp only [List.mem_map] at hr
      obtain ⟨p, hp, rfl⟩ := hr
      exact runes_no_small 32 (by norm_num) p (hpat p hp))
  have hset := set_of_bar f (compactForm name patterns) _ _
    (runes_compactForm name patterns) (runes_no_small 124 (by norm_num) name hname)
  rw [hsplit, map_string_runes, string_runes] at hset
  rw [hset]; rfl

end Cmd

end Zenity
